import Mathlib

/-!
# Verification of `openalex_crick_datasets.py`

A shallow embedding of the single-file Python program that queries the
OpenAlex API for datasets from the Francis Crick Institute, paginates
through the results, persists them to a JSON file and prints a summary.

The embedding models:

* `get_crick_datasets` — the paginated fetch loop, generic in the record
  type, driven by an abstract API (`Nat → PageResp α`) and a fuel bound
  (the Python loop is `while True`; fuel exhaustion is reported as
  `FetchResult.diverge`, a modelling artefact that never occurs for the
  APIs considered in the theorems);
* `save_datasets` — persistence, producing the exact character stream
  `json.dump(datasets, f, indent=2, ensure_ascii=False)` writes;
* `print_summary` — the summary, with Python `dict.get` semantics
  (`Except PyErr` captures the exceptions attribute access can raise);
* `main` — the orchestration, including the process exit status.

Machine-level details (real sockets, the file system, `time.sleep`) are
abstracted: the API is a function from page numbers to responses, and the
file system is a single "the write succeeds" flag.
-/

/-- A Python exception that the program can raise uncaught. -/
inductive PyErr where
  /-- `AttributeError` from calling `.get` on a non-dict value. -/
  | attributeError
  /-- `OSError` from opening or writing the output file. -/
  | osError
deriving DecidableEq, Repr

/-- The outcome of one `requests.get` + `raise_for_status` + `response.json()`
round trip for a given page, as the fetch loop observes it. -/
inductive PageResp (α : Type) where
  /-- A `requests.exceptions.RequestException` (connection error or HTTP
  status error): caught by the loop's `except` clause. -/
  | netErr
  /-- The body arrived but `response.json()` failed to parse it: a
  `requests.exceptions.JSONDecodeError`, which subclasses
  `requests.exceptions.InvalidJSONError` and hence `RequestException`
  (since requests 2.27.0, and the repository pins no requests version),
  so the loop's `except` clause catches it too. -/
  | parseErr
  /-- A parsed body; `results` is `data.get("results", [])`. -/
  | ok (results : List α)
deriving DecidableEq, Repr

/-- The outcome of the fetch loop.  `done records requests` is a normal
return carrying the accumulated records and the pages requested, in
order; `diverge` is fuel exhaustion (a modelling artefact).  No
exception escapes the loop: every error the body can raise is a
`RequestException`, caught by the `except` clause (line 70). -/
inductive FetchResult (α : Type) where
  | done (records : List α) (requests : List Nat)
  | diverge
deriving DecidableEq, Repr

/-- The records of a normal return, if any. -/
def FetchResult.records? {α : Type} : FetchResult α → Option (List α)
  | .done rs _ => some rs
  | _ => none

/-- Python truthiness of the `max_results` argument (`None` and `0` are
falsy), as tested by `if max_results and len(all_datasets) >= max_results`. -/
def pyTruthy : Option Nat → Bool
  | none => false
  | some m => decide (m ≠ 0)

/-- The guard `max_results and len(all_datasets) >= max_results` at
accumulated count `n`. -/
def hitLimit (maxResults : Option Nat) (n : Nat) : Bool :=
  pyTruthy maxResults && decide (maxResults.getD 0 ≤ n)

/-- The `while True` body of `get_crick_datasets`, one constructor case per
iteration.  `page` is `params["page"]`, `acc` is `all_datasets`, `reqs`
records every page number for which an HTTP request was issued. -/
def fetchLoop {α : Type} (api : Nat → PageResp α) (perPage : Nat)
    (maxResults : Option Nat) : Nat → Nat → List α → List Nat → FetchResult α
  | 0, _, _, _ => .diverge
  | fuel + 1, page, acc, reqs =>
    match api page with
    | .netErr => .done acc (reqs ++ [page])
    | .parseErr => .done acc (reqs ++ [page])
    | .ok results =>
      if results.isEmpty then
        .done acc (reqs ++ [page])
      else
        let acc2 := acc ++ results
        if hitLimit maxResults acc2.length then
          .done (acc2.take (maxResults.getD 0)) (reqs ++ [page])
        else if results.length < perPage then
          .done acc2 (reqs ++ [page])
        else
          fetchLoop api perPage maxResults fuel (page + 1) acc2 (reqs ++ [page])

/-- `get_crick_datasets(per_page, max_results)`: run the fetch loop from
page 1 with an empty accumulator. -/
def get_crick_datasets {α : Type} (api : Nat → PageResp α) (perPage : Nat)
    (maxResults : Option Nat) (fuel : Nat) : FetchResult α :=
  fetchLoop api perPage maxResults fuel 1 [] []

/-- A mock API serving the fixed record list `L` in pages of `p`: page
`page` (1-based) returns the records at indices `(page-1)*p` to
`page*p - 1`, never erring. -/
def mockApi {α : Type} (L : List α) (p : Nat) : Nat → PageResp α :=
  fun page => .ok ((L.drop ((page - 1) * p)).take p)

/-- The number of records the loop ends up returning against `mockApi L p`
when `L` has `k` records: everything, unless `max_results` is truthy, in
which case at most `max_results` of them. -/
def effCount (m : Option Nat) (k : Nat) : Nat :=
  match m with
  | none => k
  | some mv => if mv = 0 then k else min mv k

/-- The pages the loop requests against `mockApi L p` when `L` has `k`
records: up to the page on which the truthy limit is reached, otherwise
`k / p + 1` pages (the final request returns a short or empty page). -/
def numRequests (k p : Nat) (m : Option Nat) : Nat :=
  match m with
  | some mv => if mv ≠ 0 ∧ mv ≤ k then (mv + p - 1) / p else k / p + 1
  | none => k / p + 1

/-- A JSON value, the shape of the records the OpenAlex API returns.
Numbers are modelled as integers (the only number field the program
touches, `publication_year`, is an integer; floating-point JSON numbers
are outside the model).  Objects are association lists in the dict's
insertion order. -/
inductive JVal where
  | null
  | bool (b : Bool)
  | num (n : Int)
  | str (s : String)
  | arr (xs : List JVal)
  | obj (kvs : List (String × JVal))

/-- Python's `d.get(key, default)`: returns the value stored under `key`
(even if that value is `None`), the default if the key is absent, and
raises `AttributeError` when the receiver is not a dict. -/
def pyGet (d : JVal) (key : String) (dflt : JVal) : Except PyErr JVal :=
  match d with
  | .obj kvs => .ok ((kvs.lookup key).getD dflt)
  | _ => .error .attributeError

/-- The four values `print_summary` prints for one previewed record. -/
structure Preview where
  title : JVal
  pub_year : JVal
  doi : JVal
  open_access : JVal

/-- The body of `print_summary`'s preview loop for one record, the five
`.get` calls evaluated in source order, the first exception propagating:
`dataset.get('title', 'No title')`, `dataset.get('publication_year',
'Unknown year')`, `dataset.get('doi', 'No DOI')` and
`dataset.get('open_access', {}).get('is_oa', False)`. -/
def previewRecord (dataset : JVal) : Except PyErr Preview :=
  match pyGet dataset "title" (.str "No title") with
  | .error e => .error e
  | .ok title =>
    match pyGet dataset "publication_year" (.str "Unknown year") with
    | .error e => .error e
    | .ok pub_year =>
      match pyGet dataset "doi" (.str "No DOI") with
      | .error e => .error e
      | .ok doi =>
        match pyGet dataset "open_access" (.obj []) with
        | .error e => .error e
        | .ok oa =>
          match pyGet oa "is_oa" (.bool false) with
          | .error e => .error e
          | .ok is_oa => .ok ⟨title, pub_year, doi, is_oa⟩

/-- The `for i, dataset in enumerate(datasets[:5], 1)` loop: preview each
record in order, the first exception aborting the whole loop. -/
def previewList : List JVal → Except PyErr (List Preview)
  | [] => .ok []
  | d :: ds =>
    match previewRecord d with
    | .error e => .error e
    | .ok pv =>
      match previewList ds with
      | .error e => .error e
      | .ok pvs => .ok (pv :: pvs)

/-- What `print_summary` prints, structurally: the total count
(`len(datasets)`) and the previews of `datasets[:5]` (none when the
collection is empty, thanks to the `if datasets:` guard). -/
structure Summary where
  total : Nat
  previews : List Preview

/-- `print_summary(datasets)`: an `Except` because Python's `.get` raises
`AttributeError` on a record (or `open_access` value) that is not a
dict. -/
def print_summary (datasets : List JVal) : Except PyErr Summary :=
  match previewList (datasets.take 5) with
  | .error e => .error e
  | .ok previews => .ok ⟨datasets.length, previews⟩

/-- The record shapes enumerated by the spec's malformed-record clause: a
dict whose `open_access` entry, when present, is itself a dict. -/
def oaShapeOk (d : JVal) : Bool :=
  match d with
  | .obj kvs =>
    match kvs.lookup "open_access" with
    | none => true
    | some (.obj _) => true
    | some _ => false
  | _ => false

/-- The quote character (34), named to keep literals unambiguous. -/
def qMark : Char := Char.ofNat 34

/-- The backslash character (92). -/
def bSlash : Char := Char.ofNat 92

/-- The opening brace character (123). -/
def lBrace : Char := Char.ofNat 123

/-- The closing brace character (125). -/
def rBrace : Char := Char.ofNat 125

/-- The newline character (10). -/
def nlChar : Char := Char.ofNat 10

/-- A lowercase hexadecimal digit, as `\u00xx` escapes use. -/
def hexDigitChar (n : Nat) : Char :=
  if n < 10 then Char.ofNat (48 + n) else Char.ofNat (87 + n)

/-- How `json.dump` writes one character of a string with
`ensure_ascii=False`: quote and backslash escaped, the control
characters 8, 9, 10, 12, 13 written with their short escapes, the
remaining characters below 32 as `\u00xx`, and everything else —
non-ASCII included — verbatim. -/
def escapeChar (c : Char) : List Char :=
  if c = qMark then [bSlash, qMark]
  else if c = bSlash then [bSlash, bSlash]
  else if c.toNat = 8 then [bSlash, 'b']
  else if c.toNat = 9 then [bSlash, 't']
  else if c.toNat = 10 then [bSlash, 'n']
  else if c.toNat = 12 then [bSlash, 'f']
  else if c.toNat = 13 then [bSlash, 'r']
  else if c.toNat < 32 then
    [bSlash, 'u', '0', '0',
      hexDigitChar (c.toNat / 16), hexDigitChar (c.toNat % 16)]
  else [c]

/-- Escape every character of a string body in turn. -/
def escapeList : List Char → List Char
  | [] => []
  | c :: cs => escapeChar c ++ escapeList cs

/-- A JSON string literal: quote, escaped body, quote. -/
def renderString (s : String) : List Char :=
  qMark :: (escapeList s.data ++ [qMark])

/-- A decimal digit character. -/
def digitChar (d : Nat) : Char := Char.ofNat (48 + d)

/-- Decimal digits of a natural number, most significant first, as
Python's `repr` writes it. -/
def natChars (n : Nat) : List Char :=
  if _h : n < 10 then [digitChar n]
  else natChars (n / 10) ++ [digitChar (n % 10)]
termination_by n
decreasing_by exact Nat.div_lt_self (by omega) (by omega)

/-- A Python `int` in decimal, with a leading minus sign if negative. -/
def intChars (n : Int) : List Char :=
  if n < 0 then '-' :: natChars n.natAbs else natChars n.natAbs

/-- The newline plus indentation that `json.dump(…, indent=2)` inserts
before each item at indentation level `ind`. -/
def indentChars (ind : Nat) : List Char :=
  nlChar :: List.replicate ind ' '

mutual

/-- The text `json.dump(v, f, indent=2, ensure_ascii=False)` writes for
the value `v` at indentation level `ind` (the enclosing renderer emits
any newline and indentation that precede `v`). -/
def renderVal : JVal → Nat → List Char
  | .null, _ => ['n', 'u', 'l', 'l']
  | .bool true, _ => ['t', 'r', 'u', 'e']
  | .bool false, _ => ['f', 'a', 'l', 's', 'e']
  | .num n, _ => intChars n
  | .str s, _ => renderString s
  | .arr [], _ => ['[', ']']
  | .arr (x :: xs), ind =>
    '[' :: (indentChars (ind + 2) ++ renderVal x (ind + 2)
      ++ renderArrItems xs (ind + 2) ++ indentChars ind ++ [']'])
  | .obj [], _ => [lBrace, rBrace]
  | .obj ((k, v) :: kvs), ind =>
    lBrace :: (indentChars (ind + 2) ++ renderString k ++ ':' :: ' '
      :: renderVal v (ind + 2) ++ renderObjItems kvs (ind + 2)
      ++ indentChars ind ++ [rBrace])
termination_by v _ => sizeOf v

/-- The remaining `, <newline+indent> <item>` segments of a non-empty
JSON array. -/
def renderArrItems : List JVal → Nat → List Char
  | [], _ => []
  | x :: xs, ind =>
    ',' :: (indentChars ind ++ renderVal x ind ++ renderArrItems xs ind)
termination_by xs _ => sizeOf xs

/-- The remaining `, <newline+indent> "key": <value>` segments of a
non-empty JSON object. -/
def renderObjItems : List (String × JVal) → Nat → List Char
  | [], _ => []
  | (k, v) :: kvs, ind =>
    ',' :: (indentChars ind ++ renderString k ++ ':' :: ' '
      :: renderVal v ind ++ renderObjItems kvs ind)
termination_by kvs _ => sizeOf kvs

end

/-- `save_datasets(datasets, filename)`: open the file for writing and
`json.dump(datasets, f, indent=2, ensure_ascii=False)`.  An `OSError`
from the file system is not caught anywhere and propagates; the file
system itself is abstracted into the single flag `writeOk`, and the
result carries the exact character stream written. -/
def save_datasets (datasets : List JVal) (writeOk : Bool) :
    Except PyErr (List Char) :=
  if writeOk then .ok (renderVal (.arr datasets) 0) else .error .osError

/-- An API serving the records of `L` in pages of `p` for pages before
`e`, and failing with response `r` from page `e` on. -/
def failAt {α : Type} (L : List α) (p e : Nat) (r : PageResp α) :
    Nat → PageResp α :=
  fun page => if page < e then mockApi L p page else r

/-- What the fetch loop does with a failing response `r` that arrives
with `records` accumulated and `reqs` requested. -/
def failResult {α : Type} (r : PageResp α) (records : List α)
    (reqs : List Nat) : FetchResult α :=
  match r with
  | .netErr => .done records reqs
  | .parseErr => .done records reqs
  | .ok _ => .diverge

/-- The observable outcome of a run of `main`. -/
inductive ProcOut where
  | exit0 (datasets : List JVal) (written : Option (List Char))
      (summary : Option Summary) (keys : Option (List String))
  | fatal (err : PyErr)
  | outOfFuel

/-- `main()` (primed because Lean reserves the name `main` for entry
points): fetch with `per_page=200` and no `max_results`, then — only
when records were found — persist, summarize, and dump the first
record's key list (`datasets[0].keys()`).  A `fatal` outcome is an
uncaught exception terminating the interpreter. -/
def main' (api : Nat → PageResp JVal) (writeOk : Bool) (fuel : Nat) :
    ProcOut :=
  match get_crick_datasets api 200 none fuel with
  | .diverge => .outOfFuel
  | .done datasets _ =>
    if datasets.isEmpty then
      .exit0 datasets none none none
    else
      match save_datasets datasets writeOk with
      | .error e => .fatal e
      | .ok content =>
        match print_summary datasets with
        | .error e => .fatal e
        | .ok s =>
          match datasets with
          | [] => .exit0 datasets (some content) (some s) none
          | d :: _ =>
            match d with
            | .obj kvs => .exit0 datasets (some content) (some s)
                (some (kvs.map Prod.fst))
            | _ => .fatal .attributeError

/-- The process exit status: `0` on normal termination, `1` when an
uncaught exception terminates the interpreter; no status when the model
ran out of fuel. -/
def exitCode : ProcOut → Option Nat
  | .exit0 _ _ _ _ => some 0
  | .fatal _ => some 1
  | .outOfFuel => none

/-- JSON insignificant whitespace: space, newline, tab, carriage return. -/
def isWsChar (c : Char) : Bool :=
  c = ' ' || c = nlChar || c.toNat = 9 || c.toNat = 13

/-- Drop leading insignificant whitespace. -/
def skipWs : List Char → List Char
  | [] => []
  | c :: cs => if isWsChar c then skipWs cs else c :: cs

/-- The numeric value of a hexadecimal digit character, if it is one. -/
def hexVal? (c : Char) : Option Nat :=
  if 48 ≤ c.toNat ∧ c.toNat ≤ 57 then some (c.toNat - 48)
  else if 97 ≤ c.toNat ∧ c.toNat ≤ 102 then some (c.toNat - 87)
  else if 65 ≤ c.toNat ∧ c.toNat ≤ 70 then some (c.toNat - 55)
  else none

/-- The body of a JSON string literal after its opening quote, with the
standard escapes, strict about unescaped control characters (as
`json.loads` is); `acc` holds the decoded characters in reverse. -/
def parseStringBody (acc : List Char) : List Char → Option (String × List Char)
  | [] => none
  | c :: cs =>
    if c = qMark then some (⟨acc.reverse⟩, cs)
    else if c = bSlash then
      match cs with
      | [] => none
      | e :: cs2 =>
        if e = qMark then parseStringBody (qMark :: acc) cs2
        else if e = bSlash then parseStringBody (bSlash :: acc) cs2
        else if e = '/' then parseStringBody ('/' :: acc) cs2
        else if e = 'b' then parseStringBody (Char.ofNat 8 :: acc) cs2
        else if e = 'f' then parseStringBody (Char.ofNat 12 :: acc) cs2
        else if e = 'n' then parseStringBody (nlChar :: acc) cs2
        else if e = 'r' then parseStringBody (Char.ofNat 13 :: acc) cs2
        else if e = 't' then parseStringBody (Char.ofNat 9 :: acc) cs2
        else if e = 'u' then
          match cs2 with
          | h1 :: h2 :: h3 :: h4 :: cs3 =>
            match hexVal? h1, hexVal? h2, hexVal? h3, hexVal? h4 with
            | some a, some b, some c2, some d =>
              parseStringBody
                (Char.ofNat (a * 4096 + b * 256 + c2 * 16 + d) :: acc) cs3
            | _, _, _, _ => none
          | _ => none
        else none
    else if c.toNat < 32 then none
    else parseStringBody (c :: acc) cs

/-- Consume a maximal run of decimal digits, folding them onto `acc`. -/
def parseDigits : List Char → Nat → (Nat × List Char)
  | [], acc => (acc, [])
  | c :: cs, acc =>
    if c.isDigit then parseDigits cs (acc * 10 + (c.toNat - 48))
    else (acc, c :: cs)

/-- A JSON number restricted to the integers `json.dump` emits for this
model: an optional minus sign followed by decimal digits. -/
def parseNumber : List Char → Option (JVal × List Char)
  | [] => none
  | c :: cs =>
    if c = '-' then
      match cs with
      | [] => none
      | d :: _ =>
        if d.isDigit then
          match parseDigits cs 0 with
          | (n, rest) => some (.num (-(n : Int)), rest)
        else none
    else if c.isDigit then
      match parseDigits (c :: cs) 0 with
      | (n, rest) => some (.num (n : Int), rest)
    else none

mutual

/-- Modelled on Python's `json.loads` for the sub-language `json.dump`
emits for `JVal` values (string escapes, integer numbers, arrays,
objects, literals, arbitrary inter-token whitespace).  The fuel bounds
the nesting recursion; every character-level loop is structural. -/
def parseValue : Nat → List Char → Option (JVal × List Char)
  | 0, _ => none
  | fuel + 1, cs =>
    match skipWs cs with
    | [] => none
    | c :: cs2 =>
      if c = qMark then
        match parseStringBody [] cs2 with
        | some (s, rest) => some (.str s, rest)
        | none => none
      else if c = lBrace then
        match skipWs cs2 with
        | [] => none
        | d :: cs3 =>
          if d = rBrace then some (.obj [], cs3)
          else
            match parseMembers fuel (d :: cs3) with
            | some (kvs, rest) => some (.obj kvs, rest)
            | none => none
      else if c = '[' then
        match skipWs cs2 with
        | [] => none
        | d :: cs3 =>
          if d = ']' then some (.arr [], cs3)
          else
            match parseElements fuel (d :: cs3) with
            | some (vs, rest) => some (.arr vs, rest)
            | none => none
      else if c = 'n' then
        match cs2 with
        | 'u' :: 'l' :: 'l' :: rest => some (.null, rest)
        | _ => none
      else if c = 't' then
        match cs2 with
        | 'r' :: 'u' :: 'e' :: rest => some (.bool true, rest)
        | _ => none
      else if c = 'f' then
        match cs2 with
        | 'a' :: 'l' :: 's' :: 'e' :: rest => some (.bool false, rest)
        | _ => none
      else parseNumber (c :: cs2)

/-- The comma-separated elements of a non-empty JSON array, up to and
including the closing bracket. -/
def parseElements : Nat → List Char → Option (List JVal × List Char)
  | 0, _ => none
  | fuel + 1, cs =>
    match parseValue fuel cs with
    | none => none
    | some (v, rest) =>
      match skipWs rest with
      | ',' :: rest2 =>
        match parseElements fuel rest2 with
        | some (vs, rest3) => some (v :: vs, rest3)
        | none => none
      | ']' :: rest2 => some ([v], rest2)
      | _ => none

/-- The comma-separated members of a non-empty JSON object, up to and
including the closing brace. -/
def parseMembers : Nat → List Char → Option (List (String × JVal) × List Char)
  | 0, _ => none
  | fuel + 1, cs =>
    match skipWs cs with
    | [] => none
    | c :: cs2 =>
      if c = qMark then
        match parseStringBody [] cs2 with
        | none => none
        | some (key, rest) =>
          match skipWs rest with
          | ':' :: rest2 =>
            match parseValue fuel rest2 with
            | none => none
            | some (v, rest3) =>
              match skipWs rest3 with
              | ',' :: rest4 =>
                match parseMembers fuel rest4 with
                | some (kvs, rest5) => some ((key, v) :: kvs, rest5)
                | none => none
              | d :: rest4 =>
                if d = rBrace then some ([(key, v)], rest4) else none
              | [] => none
          | _ => none
      else none

end

/-- The JSON value of a whole document, whitespace-padded: a model of
Python's `json.loads`; the fuel `cs.length + 1` exceeds any nesting
depth a successful parse can reach. -/
def json_loads (cs : List Char) : Option JVal :=
  match parseValue (cs.length + 1) cs with
  | some (v, rest) => if (skipWs rest).isEmpty then some v else none
  | none => none

mutual

/-- Fuel sufficient for `parseValue` on the rendering of `v`. -/
def vsize : JVal → Nat
  | .null => 1
  | .bool _ => 1
  | .num _ => 1
  | .str _ => 1
  | .arr xs => 1 + listFuel xs
  | .obj kvs => 1 + objFuel kvs
termination_by v => sizeOf v

/-- Fuel sufficient for `parseElements` on rendered array items. -/
def listFuel : List JVal → Nat
  | [] => 1
  | x :: xs => 1 + vsize x + listFuel xs
termination_by xs => sizeOf xs

/-- Fuel sufficient for `parseMembers` on rendered object members. -/
def objFuel : List (String × JVal) → Nat
  | [] => 1
  | (_, v) :: kvs => 1 + vsize v + objFuel kvs
termination_by kvs => sizeOf kvs

end

/-- The next character, if any, is not a decimal digit — the boundary a
maximal-munch number scan stops at. -/
def digitBoundary : List Char → Prop
  | [] => True
  | c :: _ => c.isDigit = false

/-- Reduce an `if` whose boolean condition is known to be `false`. -/
theorem if_eq_false_right {c : Bool} {beta : Sort _} (h : c = false) (a b : beta) :
    (if c = true then a else b) = b := by
  subst h
  rfl

example : get_crick_datasets (mockApi [10, 20, 30, 40, 50] 2) 2 none 10
    = .done [10, 20, 30, 40, 50] [1, 2, 3] := by decide

example : get_crick_datasets (mockApi [10, 20, 30, 40] 2) 2 none 10
    = .done [10, 20, 30, 40] [1, 2, 3] := by decide

example : get_crick_datasets (mockApi [10, 20, 30, 40, 50] 2) 2 (some 3) 10
    = .done [10, 20, 30] [1, 2] := by decide

example : get_crick_datasets (mockApi [10, 20, 30, 40, 50] 2) 2 (some 0) 10
    = .done [10, 20, 30, 40, 50] [1, 2, 3] := by decide

example : get_crick_datasets (mockApi ([] : List Nat) 2) 2 none 10
    = .done [] [1] := by decide

example : numRequests 450 200 none = 3 := by decide

example : numRequests 450 200 (some 300) = 2 := by decide

example : numRequests 400 200 none = 3 := by decide

/-- Loop invariant for the fetch loop run against `mockApi L p`: entering
iteration `j + 1` with the first `j * p` records accumulated and pages
`1..j` already requested (the limit, when truthy, not yet reached), the
loop returns the first `effCount` records and requests exactly the pages
`1..numRequests`. -/
theorem fetchLoop_mockApi {α : Type} (L : List α) (p : Nat) (m : Option Nat)
    (hp : 1 ≤ p) :
    ∀ fuel j, j * p ≤ L.length →
      (pyTruthy m = true → j * p < m.getD 0) →
      L.length - j * p < fuel →
      fetchLoop (mockApi L p) p m fuel (j + 1) (L.take (j * p)) (List.range' 1 j)
        = .done (L.take (effCount m L.length))
            (List.range' 1 (numRequests L.length p m)) := by
  intro fuel
  induction fuel with
  | zero => intro j hj hm hfuel; omega
  | succ fuel ih =>
    intro j hj hm hfuel
    have hj1 : (j + 1 - 1) * p = j * p := by rw [Nat.add_sub_cancel]
    have hrange : List.range' 1 j ++ [j + 1] = List.range' 1 (j + 1) := by
      rw [List.range'_concat]
      simp [Nat.add_comm]
    rcases Nat.eq_or_lt_of_le hj with hj' | hj'
    · -- page `j + 1` is empty: the loop stops with everything accumulated
      have hdrop : L.drop ((j + 1 - 1) * p) = [] := by
        rw [hj1, hj']
        exact List.drop_length L
      have heff : effCount m L.length = L.length := by
        cases m with
        | none => rfl
        | some mv =>
          by_cases h0 : mv = 0
          · simp [effCount, h0]
          · have hlt := hm (by simp [pyTruthy, h0])
            simp only [Option.getD_some] at hlt
            simp only [effCount, if_neg h0]
            omega
      have hreq : numRequests L.length p m = j + 1 := by
        have hdiv : L.length / p = j := by
          rw [← hj', Nat.mul_div_cancel _ (by omega)]
        cases m with
        | none => simp [numRequests, hdiv]
        | some mv =>
          by_cases h0 : mv = 0
          · simp [numRequests, h0, hdiv]
          · have hlt := hm (by simp [pyTruthy, h0])
            simp only [Option.getD_some] at hlt
            have hnot : ¬ (mv ≠ 0 ∧ mv ≤ L.length) := by omega
            simp [numRequests, hnot, hdiv]
      simp only [fetchLoop, mockApi, hdrop, List.take_nil]
      rw [if_pos (show ([] : List α).isEmpty = true from rfl)]
      rw [hrange, heff, hreq, hj']
    · -- page `j + 1` is non-empty
      have hlen : ((L.drop ((j + 1 - 1) * p)).take p).length
          = min p (L.length - j * p) := by
        rw [hj1]
        simp [List.length_take, List.length_drop]
      have hne : ¬ ((L.drop ((j + 1 - 1) * p)).take p).isEmpty = true := by
        rw [List.isEmpty_iff]
        intro hnil
        rw [hnil] at hlen
        simp only [List.length_nil] at hlen
        omega
      have hacc : L.take (j * p) ++ (L.drop ((j + 1 - 1) * p)).take p
          = L.take (j * p + p) := by
        rw [hj1, ← List.take_add]
      simp only [fetchLoop, mockApi]
      rw [if_neg hne]
      simp only [hacc, hrange]
      have hacclen : (L.take (j * p + p)).length = min (j * p + p) L.length :=
        List.length_take _ _
      by_cases hhit : hitLimit m (L.take (j * p + p)).length = true
      · -- the truthy limit is reached on this page: truncate and stop
        obtain ⟨mv, rfl⟩ : ∃ mv, m = some mv := by
          cases m with
          | none => simp [hitLimit, pyTruthy] at hhit
          | some mv => exact ⟨mv, rfl⟩
        have h0 : mv ≠ 0 := by
          intro h
          rw [h] at hhit
          simp [hitLimit, pyTruthy] at hhit
        have hle : mv ≤ min (j * p + p) L.length := by
          have h2 := hhit
          simp only [hitLimit, pyTruthy, Option.getD_some, Bool.and_eq_true,
            decide_eq_true_eq, hacclen] at h2
          exact h2.2
        have hgt : j * p < mv := by
          have h3 := hm (by simp [pyTruthy, h0])
          simpa using h3
        have hle2 : mv ≤ j * p + p := le_trans hle (Nat.min_le_left _ _)
        have hle3 : mv ≤ L.length := le_trans hle (Nat.min_le_right _ _)
        have htake : (L.take (j * p + p)).take mv = L.take mv := by
          rw [List.take_take]
          congr 1
          omega
        have heff : effCount (some mv) L.length = mv := by
          simp only [effCount, if_neg h0]
          omega
        have hreq : numRequests L.length p (some mv) = j + 1 := by
          have hdiv : (mv + p - 1) / p = j + 1 := by
            apply Nat.div_eq_of_lt_le
            · simp only [Nat.add_mul, Nat.one_mul]
              omega
            · simp only [Nat.add_mul, Nat.one_mul]
              omega
          have hand : mv ≠ 0 ∧ mv ≤ L.length := ⟨h0, hle3⟩
          simp [numRequests, hand, hdiv]
        rw [if_pos hhit]
        simp only [Option.getD_some, htake, heff, hreq]
      · rw [if_neg hhit]
        by_cases hshort : ((L.drop ((j + 1 - 1) * p)).take p).length < p
        · -- short page: the last page of data; stop with everything
          rw [if_pos hshort]
          rw [hlen] at hshort
          have hkend : L.length < j * p + p := by omega
          have hnothit : pyTruthy m = true → L.length < m.getD 0 := by
            intro ht
            by_contra hc
            apply hhit
            simp only [hitLimit, ht, Bool.true_and, decide_eq_true_eq, hacclen]
            omega
          have heff : effCount m L.length = L.length := by
            cases m with
            | none => rfl
            | some mv =>
              by_cases h0 : mv = 0
              · simp [effCount, h0]
              · have hlt := hnothit (by simp [pyTruthy, h0])
                simp only [Option.getD_some] at hlt
                simp only [effCount, if_neg h0]
                omega
          have hreq : numRequests L.length p m = j + 1 := by
            have hdiv : L.length / p = j := by
              apply Nat.div_eq_of_lt_le
              · exact hj
              · simp only [Nat.add_mul, Nat.one_mul]
                omega
            cases m with
            | none => simp [numRequests, hdiv]
            | some mv =>
              by_cases h0 : mv = 0
              · simp [numRequests, h0, hdiv]
              · have hlt := hnothit (by simp [pyTruthy, h0])
                simp only [Option.getD_some] at hlt
                have hnot : ¬ (mv ≠ 0 ∧ mv ≤ L.length) := by omega
                simp [numRequests, hnot, hdiv]
          have htk : L.take (j * p + p) = L.take L.length := by
            rw [List.take_of_length_le (by omega : L.length ≤ j * p + p),
              List.take_length]
          rw [htk, heff, hreq]
        · -- full page: continue to page `j + 2`
          rw [if_neg hshort]
          rw [hlen] at hshort
          have hfull : j * p + p ≤ L.length := by omega
          have hmnext : pyTruthy m = true → j * p + p < m.getD 0 := by
            intro ht
            by_contra hc
            apply hhit
            simp only [hitLimit, ht, Bool.true_and, decide_eq_true_eq, hacclen]
            omega
          have hstep := ih (j + 1)
            (by simp only [Nat.add_mul, Nat.one_mul]; omega)
            (by
              intro ht
              have h4 := hmnext ht
              simp only [Nat.add_mul, Nat.one_mul]
              omega)
            (by simp only [Nat.add_mul, Nat.one_mul]; omega)
          have hargs : L.take (j * p + p) = L.take ((j + 1) * p) := by
            simp only [Nat.add_mul, Nat.one_mul]
          rw [hargs]
          exact hstep

/-- Closed form of a full run of `get_crick_datasets` against `mockApi L p`. -/
theorem get_crick_datasets_mockApi {α : Type} (L : List α) (p : Nat)
    (m : Option Nat) (fuel : Nat) (hp : 1 ≤ p) (hfuel : L.length < fuel) :
    get_crick_datasets (mockApi L p) p m fuel
      = .done (L.take (effCount m L.length))
          (List.range' 1 (numRequests L.length p m)) := by
  have h0 : pyTruthy m = true → 0 * p < m.getD 0 := by
    intro ht
    cases m with
    | none => simp [pyTruthy] at ht
    | some mv =>
      simp only [pyTruthy, decide_eq_true_eq] at ht
      simp only [Option.getD_some, Nat.zero_mul]
      omega
  have h := fetchLoop_mockApi L p m hp fuel 0 (by simp) h0 (by simpa)
  simpa [get_crick_datasets] using h

/-- **C1.** For every page size `p` with `1 ≤ p ≤ 200` and a mock API
serving the record list `L` (so `k = L.length` total matching records)
across pages, `get_crick_datasets` returns exactly
`min(k, max_results or ∞)` records — all of `L` when `max_results` is
falsy, otherwise its first `max_results` — and they are a prefix of the
concatenation `L` of the pages' results arrays in arrival order. -/
theorem C1_fetch_returns_min_available_limit {α : Type}
    (L : List α) (p : Nat) (m : Option Nat) (fuel : Nat)
    (hp1 : 1 ≤ p) (hp2 : p ≤ 200) (hfuel : L.length < fuel) :
    (get_crick_datasets (mockApi L p) p m fuel).records?
        = some (L.take (effCount m L.length))
      ∧ (L.take (effCount m L.length)).length
          = min L.length (if pyTruthy m then m.getD 0 else L.length)
      ∧ L.take (effCount m L.length) ++ L.drop (effCount m L.length) = L := by
  refine ⟨?_, ?_, List.take_append_drop _ _⟩
  · rw [get_crick_datasets_mockApi L p m fuel hp1 hfuel]
    rfl
  · rw [List.length_take]
    cases m with
    | none => simp [effCount, pyTruthy]
    | some mv =>
      by_cases h0 : mv = 0
      · simp [effCount, pyTruthy, h0]
      · have ht : pyTruthy (some mv) = true := by simp [pyTruthy, h0]
        simp only [effCount, if_neg h0, ht, if_true, Option.getD_some]
        omega

/-- Witness for C1 at `L = [1,2,3,4,5]`, `p = 2`, `max_results = 3`. -/
theorem C1_fetch_returns_min_available_limit_witness :
    (get_crick_datasets (mockApi [1, 2, 3, 4, 5] 2) 2 (some 3) 6).records?
        = some [1, 2, 3]
      ∧ ([1, 2, 3] : List Nat).length = min 5 3
      ∧ [1, 2, 3] ++ [4, 5] = [1, 2, 3, 4, 5] :=
  C1_fetch_returns_min_available_limit [1, 2, 3, 4, 5] 2 (some 3) 6
    (by decide) (by decide) (by decide)

/-- **C4.** With a truthy `max_results = mv` and more than `mv` records
available, the returned collection has length exactly `mv` and is a
prefix, in arrival order, of the unbounded result `L`; the over-shooting
final page `⌈mv/p⌉` is still requested — the request list runs all the
way to it, so the page is fetched and the truncation happens in memory,
not by stopping before the request. -/
theorem C4_truncation_after_full_page_fetch {α : Type}
    (L : List α) (p mv fuel : Nat) (hp : 1 ≤ p) (hm : 1 ≤ mv)
    (hlt : mv < L.length) (hfuel : L.length < fuel) :
    get_crick_datasets (mockApi L p) p (some mv) fuel
        = .done (L.take mv) (List.range' 1 ((mv + p - 1) / p))
      ∧ (L.take mv).length = mv
      ∧ L.take mv ++ L.drop mv = L := by
  have heff : effCount (some mv) L.length = mv := by
    simp only [effCount, if_neg (by omega : ¬ mv = 0)]
    omega
  have hreq : numRequests L.length p (some mv) = (mv + p - 1) / p := by
    have hand : mv ≠ 0 ∧ mv ≤ L.length := by omega
    simp [numRequests, hand]
  refine ⟨?_, ?_, List.take_append_drop _ _⟩
  · rw [get_crick_datasets_mockApi L p (some mv) fuel hp hfuel, heff, hreq]
  · rw [List.length_take]
    omega

/-- Witness for C4 at `L = [1,...,5]`, `p = 2`, `max_results = 3`: page 2
(the page holding the cut-off record) is requested, then truncated. -/
theorem C4_truncation_after_full_page_fetch_witness :
    get_crick_datasets (mockApi [1, 2, 3, 4, 5] 2) 2 (some 3) 6
        = .done [1, 2, 3] [1, 2]
      ∧ ([1, 2, 3] : List Nat).length = 3
      ∧ [1, 2, 3] ++ [4, 5] = [1, 2, 3, 4, 5] :=
  C4_truncation_after_full_page_fetch [1, 2, 3, 4, 5] 2 3 6
    (by decide) (by decide) (by decide) (by decide)

/-- **C8.** With exactly 450 matching records and page size 200, the
fetcher issues exactly the three requests for pages 1, 2 and 3 — which
serve 200, 200 and 50 records respectively — and returns all 450
records; no fourth request appears in the request list. -/
theorem C8_three_requests_for_450_records {α : Type} (L : List α)
    (fuel : Nat) (hlen : L.length = 450) (hfuel : 450 < fuel) :
    get_crick_datasets (mockApi L 200) 200 none fuel = .done L [1, 2, 3]
      ∧ ((L.drop ((1 - 1) * 200)).take 200).length = 200
      ∧ ((L.drop ((2 - 1) * 200)).take 200).length = 200
      ∧ ((L.drop ((3 - 1) * 200)).take 200).length = 50 := by
  refine ⟨?_, ?_, ?_, ?_⟩
  · rw [get_crick_datasets_mockApi L 200 none fuel (by omega) (by omega)]
    have heff : effCount none L.length = L.length := rfl
    have hreq : numRequests L.length 200 none = 3 := by
      rw [hlen]
      decide
    rw [heff, hreq, List.take_length]
    rfl
  · rw [List.length_take, List.length_drop]
    omega
  · rw [List.length_take, List.length_drop]
    omega
  · rw [List.length_take, List.length_drop]
    omega

/-- Witness for C8 at `L = List.replicate 450 0`. -/
theorem C8_three_requests_for_450_records_witness :
    get_crick_datasets (mockApi (List.replicate 450 (0 : Nat)) 200) 200 none 451
        = .done (List.replicate 450 (0 : Nat)) [1, 2, 3]
      ∧ (((List.replicate 450 (0 : Nat)).drop ((1 - 1) * 200)).take 200).length = 200
      ∧ (((List.replicate 450 (0 : Nat)).drop ((2 - 1) * 200)).take 200).length = 200
      ∧ (((List.replicate 450 (0 : Nat)).drop ((3 - 1) * 200)).take 200).length = 50 :=
  C8_three_requests_for_450_records (List.replicate 450 0) 451
    (by rw [List.length_replicate]) (by decide)

/-- **C10.** `max_results = 0` is falsy in Python, so the guard
`if max_results and len(all_datasets) >= max_results:` never fires:
calling the fetcher with `max_results = 0` is, at every loop state,
indistinguishable from calling it with no limit at all, and against a
mock API it returns every available record rather than an empty
collection. -/
theorem C10_max_results_zero_is_no_limit {α : Type} :
    (∀ (api : Nat → PageResp α) (p fuel page : Nat) (acc : List α)
        (reqs : List Nat),
        fetchLoop api p (some 0) fuel page acc reqs
          = fetchLoop api p none fuel page acc reqs)
      ∧ ∀ (L : List α) (p fuel : Nat), 1 ≤ p → L.length < fuel →
          (get_crick_datasets (mockApi L p) p (some 0) fuel).records?
            = some L := by
  constructor
  · intro api p fuel
    induction fuel with
    | zero => intro page acc reqs; rfl
    | succ fuel ih =>
      intro page acc reqs
      cases hapi : api page with
      | netErr => simp only [fetchLoop, hapi]
      | parseErr => simp only [fetchLoop, hapi]
      | ok results =>
        simp only [fetchLoop, hapi]
        by_cases hres : results.isEmpty = true
        · rw [if_pos hres, if_pos hres]
        · rw [if_neg hres, if_neg hres]
          have hA : hitLimit (some 0) (acc ++ results).length = false := rfl
          have hB : hitLimit none (acc ++ results).length = false := rfl
          rw [if_eq_false_right hA, if_eq_false_right hB]
          by_cases hsh : results.length < p
          · rw [if_pos hsh, if_pos hsh]
          · rw [if_neg hsh, if_neg hsh]
            exact ih (page + 1) (acc ++ results) (reqs ++ [page])
  · intro L p fuel hp hfuel
    rw [get_crick_datasets_mockApi L p (some 0) fuel hp hfuel]
    have heff : effCount (some 0) L.length = L.length := rfl
    rw [heff, List.take_length]
    rfl

/-- Witness for C10 at a two-page mock API. -/
theorem C10_max_results_zero_is_no_limit_witness :
    (fetchLoop (mockApi [7, 8, 9] 2) 2 (some 0) 5 1 [] []
        = fetchLoop (mockApi [7, 8, 9] 2) 2 none 5 1 [] [])
      ∧ (get_crick_datasets (mockApi [7, 8, 9] 2) 2 (some 0) 4).records?
          = some [7, 8, 9] :=
  ⟨(C10_max_results_zero_is_no_limit (α := Nat)).1 (mockApi [7, 8, 9] 2) 2 5 1 [] [],
    (C10_max_results_zero_is_no_limit (α := Nat)).2 [7, 8, 9] 2 4
      (by decide) (by decide)⟩

/-- Previewing a list succeeds when previewing each record succeeds, with
one preview per record. -/
theorem previewList_ok_of_forall_ok :
    ∀ l : List JVal, (∀ d ∈ l, ∃ pv, previewRecord d = .ok pv) →
      ∃ pvs : List Preview, previewList l = .ok pvs ∧ pvs.length = l.length := by
  intro l
  induction l with
  | nil => intro _; exact ⟨[], rfl, rfl⟩
  | cons d l ihl =>
    intro h
    obtain ⟨pv, hpv⟩ := h d (List.mem_cons_self d l)
    obtain ⟨pvs, hpvs, hlen⟩ := ihl fun x hx => h x (List.mem_cons_of_mem d hx)
    refine ⟨pv :: pvs, ?_, by simp [hlen]⟩
    simp only [previewList, hpv, hpvs]

/-- A successful preview loop yields one preview per record. -/
theorem previewList_ok_length :
    ∀ (l : List JVal) (pvs : List Preview),
      previewList l = .ok pvs → pvs.length = l.length := by
  intro l
  induction l with
  | nil =>
    intro pvs h
    cases h
    rfl
  | cons d l ihl =>
    intro pvs h
    simp only [previewList] at h
    cases hd : previewRecord d with
    | error e => rw [hd] at h; cases h
    | ok pv =>
      rw [hd] at h
      cases hl : previewList l with
      | error e => rw [hl] at h; cases h
      | ok pvs2 =>
        rw [hl] at h
        cases h
        simp [ihl pvs2 hl]

/-- The preview of a single dict record whose `open_access` entry is
either absent or a dict: every field falls back through `.get`. -/
theorem previewRecord_obj (kvs : List (String × JVal))
    (hok : oaShapeOk (.obj kvs) = true) :
    ∃ pv, previewRecord (.obj kvs) = .ok pv
      ∧ pv.title = (kvs.lookup "title").getD (.str "No title")
      ∧ pv.pub_year = (kvs.lookup "publication_year").getD (.str "Unknown year")
      ∧ pv.doi = (kvs.lookup "doi").getD (.str "No DOI")
      ∧ pv.open_access
          = (match (kvs.lookup "open_access").getD (.obj []) with
             | .obj sub => (sub.lookup "is_oa").getD (.bool false)
             | _ => .bool false) := by
  simp only [oaShapeOk] at hok
  cases hoa : kvs.lookup "open_access" with
  | none =>
    refine ⟨⟨(kvs.lookup "title").getD (.str "No title"),
      (kvs.lookup "publication_year").getD (.str "Unknown year"),
      (kvs.lookup "doi").getD (.str "No DOI"), .bool false⟩, ?_, rfl, rfl, rfl, ?_⟩
    · simp [previewRecord, pyGet, hoa]
    · simp [hoa]
  | some oa =>
    rw [hoa] at hok
    cases oa with
    | obj sub =>
      refine ⟨⟨(kvs.lookup "title").getD (.str "No title"),
        (kvs.lookup "publication_year").getD (.str "Unknown year"),
        (kvs.lookup "doi").getD (.str "No DOI"),
        (sub.lookup "is_oa").getD (.bool false)⟩, ?_, rfl, rfl, rfl, ?_⟩
      · simp [previewRecord, pyGet, hoa]
      · simp [hoa]
    | null => simp at hok
    | bool b => simp at hok
    | num n => simp at hok
    | str s => simp at hok
    | arr xs => simp at hok

/-- **C6.** `print_summary` never raises on the malformed records the spec
enumerates: for any collection of dict records whose `open_access` entry
(when present) is a dict, the summary succeeds; and a record missing
`title`, `publication_year`, `doi` or `open_access` — or whose
`open_access` sub-mapping lacks the `is_oa` flag — is previewed with the
literal fallbacks `"No title"`, `"Unknown year"`, `"No DOI"` and `false`
respectively, with no validation performed. -/
theorem C6_summary_fallbacks_never_raise :
    (∀ ds : List JVal, (∀ d ∈ ds, oaShapeOk d = true) →
        ∃ s, print_summary ds = .ok s)
      ∧ (∀ kvs : List (String × JVal), oaShapeOk (.obj kvs) = true →
          ∃ pv, previewRecord (.obj kvs) = .ok pv
            ∧ (kvs.lookup "title" = none → pv.title = .str "No title")
            ∧ (kvs.lookup "publication_year" = none →
                pv.pub_year = .str "Unknown year")
            ∧ (kvs.lookup "doi" = none → pv.doi = .str "No DOI")
            ∧ (kvs.lookup "open_access" = none → pv.open_access = .bool false)
            ∧ (∀ sub, kvs.lookup "open_access" = some (.obj sub) →
                sub.lookup "is_oa" = none → pv.open_access = .bool false)) := by
  constructor
  · intro ds hds
    have hall : ∀ d ∈ ds.take 5, ∃ pv, previewRecord d = .ok pv := by
      intro d hd
      have hmem := List.mem_of_mem_take hd
      have hok := hds d hmem
      cases d with
      | obj kvs =>
        obtain ⟨pv, hpv, _⟩ := previewRecord_obj kvs hok
        exact ⟨pv, hpv⟩
      | null => simp [oaShapeOk] at hok
      | bool b => simp [oaShapeOk] at hok
      | num n => simp [oaShapeOk] at hok
      | str s => simp [oaShapeOk] at hok
      | arr xs => simp [oaShapeOk] at hok
    obtain ⟨pvs, hpvs, _⟩ := previewList_ok_of_forall_ok (ds.take 5) hall
    exact ⟨⟨ds.length, pvs⟩, by simp [print_summary, hpvs]⟩
  · intro kvs hok
    obtain ⟨pv, hpv, ht, hy, hd, hoa⟩ := previewRecord_obj kvs hok
    refine ⟨pv, hpv, ?_, ?_, ?_, ?_, ?_⟩
    · intro h; rw [ht, h]; rfl
    · intro h; rw [hy, h]; rfl
    · intro h; rw [hd, h]; rfl
    · intro h; rw [hoa, h]; rfl
    · intro sub h hsub
      rw [hoa, h]
      simp [hsub]

/-- Witness for C6: a collection holding one record with none of the four
keys, and one whose `open_access` sub-mapping lacks `is_oa`. -/
theorem C6_summary_fallbacks_never_raise_witness :
    (∃ s, print_summary [.obj [], .obj [("open_access", .obj [])]] = .ok s)
      ∧ ∃ pv, previewRecord (.obj []) = .ok pv
          ∧ pv.title = .str "No title"
          ∧ pv.pub_year = .str "Unknown year"
          ∧ pv.doi = .str "No DOI"
          ∧ pv.open_access = .bool false := by
  constructor
  · exact C6_summary_fallbacks_never_raise.1
      [.obj [], .obj [("open_access", .obj [])]] (by decide)
  · obtain ⟨pv, hpv, ht, hy, hd, hoa, _⟩ :=
      C6_summary_fallbacks_never_raise.2 [] (by decide)
    exact ⟨pv, hpv, ht rfl, hy rfl, hd rfl, hoa rfl⟩

/-- **C9.** `print_summary` on the empty collection reports total `0` and
no preview lines; in general the previews are exactly those of
`datasets[:5]`, so a collection of fewer than `5` records is previewed in
full and a larger one contributes exactly its first `5`. -/
theorem C9_summary_counts :
    (print_summary [] = .ok ⟨0, []⟩)
      ∧ ∀ (ds : List JVal) (s : Summary), print_summary ds = .ok s →
          s.total = ds.length
            ∧ s.previews.length = min ds.length 5
            ∧ previewList (ds.take 5) = .ok s.previews := by
  constructor
  · rfl
  · intro ds s h
    simp only [print_summary] at h
    cases hm : previewList (ds.take 5) with
    | error e => rw [hm] at h; cases h
    | ok pvs =>
      rw [hm] at h
      cases h
      refine ⟨rfl, ?_, rfl⟩
      have hl := previewList_ok_length (ds.take 5) pvs hm
      simp only [hl, List.length_take]
      omega

/-- Witness for C9 at a 6-record collection: exactly 5 previews. -/
theorem C9_summary_counts_witness :
    (print_summary [] = .ok ⟨0, []⟩)
      ∧ ((⟨6, List.replicate 5 ⟨.str "No title", .str "Unknown year",
            .str "No DOI", .bool false⟩⟩ : Summary).total
          = (List.replicate 6 (JVal.obj [])).length
        ∧ (List.replicate 5 (⟨.str "No title", .str "Unknown year",
            .str "No DOI", .bool false⟩ : Preview)).length
          = min (List.replicate 6 (JVal.obj [])).length 5
        ∧ previewList ((List.replicate 6 (JVal.obj [])).take 5)
          = .ok (List.replicate 5 ⟨.str "No title", .str "Unknown year",
              .str "No DOI", .bool false⟩)) :=
  ⟨C9_summary_counts.1,
    C9_summary_counts.2 (List.replicate 6 (JVal.obj []))
      ⟨6, List.replicate 5 ⟨.str "No title", .str "Unknown year",
        .str "No DOI", .bool false⟩⟩ (by rfl)⟩

/-- Running the fetch loop against an API that fails at page `e` after
serving full pages of `L` before it: the loop reaches page `e` and the
failing response decides the outcome, with every page requested exactly
once. -/
theorem fetchLoop_failAt {α : Type} (L : List α) (p e : Nat)
    (r : PageResp α) (hp : 1 ≤ p) (hr : ∀ rs, r ≠ .ok rs)
    (hL : (e - 1) * p ≤ L.length) :
    ∀ fuel j, j + 1 ≤ e → e - (j + 1) < fuel →
      fetchLoop (failAt L p e r) p none fuel (j + 1) (L.take (j * p))
          (List.range' 1 j)
        = failResult r (L.take ((e - 1) * p)) (List.range' 1 e) := by
  intro fuel
  induction fuel with
  | zero => intro j hj hfuel; omega
  | succ fuel ih =>
    intro j hj hfuel
    have hrange : List.range' 1 j ++ [j + 1] = List.range' 1 (j + 1) := by
      rw [List.range'_concat]
      simp [Nat.add_comm]
    rcases Nat.eq_or_lt_of_le hj with hj' | hj'
    · -- the request for page `j + 1 = e` fails
      have hapi : failAt L p e r (j + 1) = r := by
        simp [failAt, hj']
      cases r with
      | netErr =>
        simp only [fetchLoop, hapi, failResult]
        rw [hrange, hj', show (e - 1 : Nat) = j from by omega]
      | parseErr =>
        simp only [fetchLoop, hapi, failResult]
        rw [hrange, hj', show (e - 1 : Nat) = j from by omega]
      | ok rs => exact absurd rfl (hr rs)
    · -- page `j + 1` is before the failure: a regular full page
      have hapi : failAt L p e r (j + 1) = mockApi L p (j + 1) := by
        simp [failAt, hj']
      have hj2 : (j + 1) * p ≤ (e - 1) * p :=
        Nat.mul_le_mul_right p (by omega)
      have hjp : j * p + p ≤ L.length := by
        have h5 := le_trans hj2 hL
        simp only [Nat.add_mul, Nat.one_mul] at h5
        exact h5
      have hj1 : (j + 1 - 1) * p = j * p := by rw [Nat.add_sub_cancel]
      have hlen : ((L.drop ((j + 1 - 1) * p)).take p).length = p := by
        rw [hj1]
        simp only [List.length_take, List.length_drop]
        omega
      have hne : ¬ ((L.drop ((j + 1 - 1) * p)).take p).isEmpty = true := by
        rw [List.isEmpty_iff]
        intro hnil
        rw [hnil] at hlen
        simp only [List.length_nil] at hlen
        omega
      have hacc : L.take (j * p) ++ (L.drop ((j + 1 - 1) * p)).take p
          = L.take (j * p + p) := by
        rw [hj1, ← List.take_add]
      have hns : ¬ ((L.drop ((j + 1 - 1) * p)).take p).length < p := by
        rw [hlen]
        omega
      simp only [fetchLoop, hapi, mockApi]
      rw [if_neg hne]
      rw [if_eq_false_right
        (rfl : hitLimit none (L.take (j * p)
          ++ (L.drop ((j + 1 - 1) * p)).take p).length = false)]
      rw [if_neg hns]
      rw [hacc, hrange, show j * p + p = (j + 1) * p from by ring]
      exact ih (j + 1) (by omega) (by omega)

/-- **C2.** A network-layer or HTTP-status error on the page-`e` request
aborts the fetch immediately: the fetcher returns exactly the records
accumulated on the pages before `e` (possibly none), each page requested
once with no retry and nothing raised; and when those partial records
are non-empty (and previewable), `main` still persists and summarizes
them and exits normally. -/
theorem C2_network_error_returns_partial (L : List JVal) (e fuel : Nat)
    (he : 1 ≤ e) (hL : (e - 1) * 200 ≤ L.length) (hfuel : e ≤ fuel) :
    get_crick_datasets (failAt L 200 e .netErr) 200 none fuel
        = .done (L.take ((e - 1) * 200)) (List.range' 1 e)
      ∧ ∀ (kvs0 : List (String × JVal)) (t : List JVal) (s : Summary),
          L.take ((e - 1) * 200) = .obj kvs0 :: t →
          print_summary (L.take ((e - 1) * 200)) = .ok s →
          main' (failAt L 200 e .netErr) true fuel
            = .exit0 (L.take ((e - 1) * 200))
                (some (renderVal (.arr (L.take ((e - 1) * 200))) 0))
                (some s) (some (kvs0.map Prod.fst)) := by
  have hdone : get_crick_datasets (failAt L 200 e .netErr) 200 none fuel
      = .done (L.take ((e - 1) * 200)) (List.range' 1 e) := by
    have h := fetchLoop_failAt L 200 e .netErr (by omega)
      (fun rs h => by cases h) hL fuel 0 (by omega) (by omega)
    simpa [get_crick_datasets, failResult] using h
  refine ⟨hdone, ?_⟩
  intro kvs0 t s hcons hsum
  rw [hcons] at hdone hsum ⊢
  simp [main', hdone, save_datasets, hsum]

/-- Witness for C2: a 200-record first page, then connection refused on
page 2 — exactly those 200 records are returned, then persisted and
summarized, and the run ends normally. -/
theorem C2_network_error_returns_partial_witness :
    get_crick_datasets
        (failAt (List.replicate 200 (JVal.obj [])) 200 2 .netErr) 200 none 2
      = .done (List.replicate 200 (JVal.obj [])) [1, 2]
    ∧ main' (failAt (List.replicate 200 (JVal.obj [])) 200 2 .netErr) true 2
      = .exit0 (List.replicate 200 (JVal.obj []))
          (some (renderVal (.arr (List.replicate 200 (JVal.obj []))) 0))
          (some ⟨200, List.replicate 5 ⟨.str "No title", .str "Unknown year",
            .str "No DOI", .bool false⟩⟩)
          (some []) := by
  have h := C2_network_error_returns_partial
    (List.replicate 200 (JVal.obj [])) 2 2 (by omega)
    (by rw [List.length_replicate]) (by omega)
  exact ⟨h.1, h.2 [] (List.replicate 199 (JVal.obj []))
    ⟨200, List.replicate 5 ⟨.str "No title", .str "Unknown year",
      .str "No DOI", .bool false⟩⟩ (by rfl) (by rfl)⟩

/-- A fetch whose page-`e` request fails — with either kind of
`RequestException`, a connection error or a parse failure — returns the
records of the pages before `e`, each page requested once. -/
theorem fetchFail_partial (L : List JVal) (e fuel : Nat) (r : PageResp JVal)
    (hr : ∀ rs, r ≠ .ok rs) (he : 1 ≤ e) (hL : (e - 1) * 200 ≤ L.length)
    (hfuel : e ≤ fuel) :
    get_crick_datasets (failAt L 200 e r) 200 none fuel
      = .done (L.take ((e - 1) * 200)) (List.range' 1 e) := by
  have h := fetchLoop_failAt L 200 e r (by omega) hr hL fuel 0
    (by omega) (by omega)
  cases r with
  | netErr => simpa [get_crick_datasets, failResult] using h
  | parseErr => simpa [get_crick_datasets, failResult] using h
  | ok rs => exact absurd rfl (hr rs)

/-- After a parse failure on page `e`, `main` proceeds over the partial
records of the earlier pages as if the fetch had succeeded: when they
are non-empty (and previewable) it persists and summarizes them and
terminates normally. -/
theorem main_parseErr_partial (L : List JVal) (e fuel : Nat)
    (kvs0 : List (String × JVal)) (t : List JVal) (s : Summary)
    (he : 1 ≤ e) (hL : (e - 1) * 200 ≤ L.length) (hfuel : e ≤ fuel)
    (hcons : L.take ((e - 1) * 200) = .obj kvs0 :: t)
    (hsum : print_summary (L.take ((e - 1) * 200)) = .ok s) :
    main' (failAt L 200 e .parseErr) true fuel
      = .exit0 (L.take ((e - 1) * 200))
          (some (renderVal (.arr (L.take ((e - 1) * 200))) 0))
          (some s) (some (kvs0.map Prod.fst)) := by
  have hdone := fetchFail_partial L e fuel .parseErr
    (fun rs h => by cases h) he hL hfuel
  rw [hcons] at hdone hsum ⊢
  simp [main', hdone, save_datasets, hsum]

/-- Counterexample to C3 as stated, at a concrete input: the page-2 body
fails to parse after a full 200-record page 1.  `response.json()` raises
`requests.exceptions.JSONDecodeError`, a `RequestException` subclass
(since requests 2.27.0, and nothing pins an older requests), so the
`except` clause on line 70 catches it: the fetch returns the 200 partial
records — the very same outcome as a connection error on that page — and
the process exits with status `0`, not a non-zero status. -/
theorem C3_counterexample_parse_error_caught :
    get_crick_datasets
        (failAt (List.replicate 200 (JVal.obj [])) 200 2 .parseErr)
        200 none 2
      = .done (List.replicate 200 (JVal.obj [])) [1, 2]
    ∧ get_crick_datasets
        (failAt (List.replicate 200 (JVal.obj [])) 200 2 .parseErr)
        200 none 2
      = get_crick_datasets
        (failAt (List.replicate 200 (JVal.obj [])) 200 2 .netErr)
        200 none 2
    ∧ exitCode (main'
        (failAt (List.replicate 200 (JVal.obj [])) 200 2 .parseErr)
        true 2) = some 0 := by
  have hP := fetchFail_partial (List.replicate 200 (JVal.obj [])) 2 2
    .parseErr (fun rs h => by cases h) (by omega)
    (by rw [List.length_replicate]) (by omega)
  have hN := fetchFail_partial (List.replicate 200 (JVal.obj [])) 2 2
    .netErr (fun rs h => by cases h) (by omega)
    (by rw [List.length_replicate]) (by omega)
  have hmain := main_parseErr_partial (List.replicate 200 (JVal.obj [])) 2 2
    [] (List.replicate 199 (JVal.obj []))
    ⟨200, List.replicate 5 ⟨.str "No title", .str "Unknown year",
      .str "No DOI", .bool false⟩⟩
    (by omega) (by rw [List.length_replicate]) (by omega) (by rfl) (by rfl)
  exact ⟨hP, hP.trans hN.symm, by rw [hmain]; rfl⟩

/-- **C3** (amended).  A JSON parse failure on the page-`e` response body
IS caught by the fetch loop's handler, because
`requests.exceptions.JSONDecodeError` subclasses `RequestException`
(since requests 2.27.0): it is treated exactly like a network error —
the fetcher logs it and returns the records of the pages before `e`,
identical to the outcome of a connection error at page `e`; and when
those partial records are non-empty (and previewable), `main` still
persists and summarizes them and the process exits with status `0`. -/
theorem C3_parse_error_caught_partial (L : List JVal) (e fuel : Nat)
    (he : 1 ≤ e) (hL : (e - 1) * 200 ≤ L.length) (hfuel : e ≤ fuel) :
    get_crick_datasets (failAt L 200 e .parseErr) 200 none fuel
        = .done (L.take ((e - 1) * 200)) (List.range' 1 e)
      ∧ get_crick_datasets (failAt L 200 e .parseErr) 200 none fuel
        = get_crick_datasets (failAt L 200 e .netErr) 200 none fuel
      ∧ ∀ (kvs0 : List (String × JVal)) (t : List JVal) (s : Summary),
          L.take ((e - 1) * 200) = .obj kvs0 :: t →
          print_summary (L.take ((e - 1) * 200)) = .ok s →
          main' (failAt L 200 e .parseErr) true fuel
            = .exit0 (L.take ((e - 1) * 200))
                (some (renderVal (.arr (L.take ((e - 1) * 200))) 0))
                (some s) (some (kvs0.map Prod.fst))
          ∧ exitCode (main' (failAt L 200 e .parseErr) true fuel)
            = some 0 := by
  have hdone := fetchFail_partial L e fuel .parseErr
    (fun rs h => by cases h) he hL hfuel
  have hdoneN := fetchFail_partial L e fuel .netErr
    (fun rs h => by cases h) he hL hfuel
  refine ⟨hdone, hdone.trans hdoneN.symm, ?_⟩
  intro kvs0 t s hcons hsum
  have hmain := main_parseErr_partial L e fuel kvs0 t s he hL hfuel hcons hsum
  exact ⟨hmain, by rw [hmain]; rfl⟩

set_option maxRecDepth 4000 in
/-- Witness for the amended C3: pages 1 and 2 serve 200 records each and
page 3's body fails to parse — exactly those 400 records are returned,
persisted and summarized, and the run ends with exit status 0. -/
theorem C3_parse_error_caught_partial_witness :
    get_crick_datasets
        (failAt (List.replicate 400 (JVal.obj [])) 200 3 .parseErr)
        200 none 3
      = .done (List.replicate 400 (JVal.obj [])) [1, 2, 3]
    ∧ main' (failAt (List.replicate 400 (JVal.obj [])) 200 3 .parseErr)
        true 3
      = .exit0 (List.replicate 400 (JVal.obj []))
          (some (renderVal (.arr (List.replicate 400 (JVal.obj []))) 0))
          (some ⟨400, List.replicate 5 ⟨.str "No title", .str "Unknown year",
            .str "No DOI", .bool false⟩⟩)
          (some [])
    ∧ exitCode (main'
        (failAt (List.replicate 400 (JVal.obj [])) 200 3 .parseErr)
        true 3) = some 0 := by
  have h := C3_parse_error_caught_partial
    (List.replicate 400 (JVal.obj [])) 3 3 (by omega)
    (by rw [List.length_replicate]) (by omega)
  have h2 := h.2.2 [] (List.replicate 399 (JVal.obj []))
    ⟨400, List.replicate 5 ⟨.str "No title", .str "Unknown year",
      .str "No DOI", .bool false⟩⟩ (by rfl) (by rfl)
  exact ⟨h.1, h2.1, h2.2⟩

/-- Counterexample to C7 as stated: with one record fetched and the file
system refusing the write, `save_datasets` raises an uncaught `OSError`
and the process terminates with a non-zero exit status — a file-write
failure during persistence is not logged-and-swallowed. -/
theorem C7_counterexample_write_failure :
    main' (mockApi [JVal.obj []] 200) false 3 = .fatal .osError
      ∧ exitCode (main' (mockApi [JVal.obj []] 200) false 3) ≠ some 0 :=
  ⟨rfl, by decide⟩

/-- **C7 (amended).** The process terminates normally (exit status `0`)
whenever the operations the program leaves unhandled succeed: if the
fetch returns (network and HTTP errors, being caught and logged, still
return records), the file write succeeds, and the records are
summarizable dicts, the exit status is `0`.  As stated, C7 is false: a
file-write failure during persistence propagates and exits non-zero
(`C7_counterexample_write_failure`). -/
theorem C7_exit_zero_when_unhandled_ops_succeed
    (api : Nat → PageResp JVal) (fuel : Nat) (ds : List JVal)
    (reqs : List Nat)
    (hdone : get_crick_datasets api 200 none fuel = .done ds reqs)
    (hshape : ds = [] ∨ ∃ kvs0 t s, ds = .obj kvs0 :: t
        ∧ print_summary ds = .ok s) :
    exitCode (main' api true fuel) = some 0 := by
  rcases hshape with h | ⟨kvs0, t, s, hcons, hsum⟩
  · subst h
    simp [main', hdone, exitCode]
  · subst hcons
    simp [main', hdone, save_datasets, hsum, exitCode]

/-- Witness for the amended C7: one record, write succeeds, exit 0. -/
theorem C7_exit_zero_when_unhandled_ops_succeed_witness :
    exitCode (main' (mockApi [JVal.obj []] 200) true 3) = some 0 :=
  C7_exit_zero_when_unhandled_ops_succeed (mockApi [JVal.obj []] 200) 3
    [JVal.obj []] [1] (by rfl)
    (Or.inr ⟨[], [], ⟨1, [⟨.str "No title", .str "Unknown year",
      .str "No DOI", .bool false⟩]⟩, rfl, rfl⟩)

/-- Structural induction over `JVal` with membership hypotheses for the
nested lists. -/
theorem JVal.recMem {P : JVal → Prop}
    (hnull : P .null) (hbool : ∀ b, P (.bool b)) (hnum : ∀ n, P (.num n))
    (hstr : ∀ s, P (.str s))
    (harr : ∀ xs, (∀ x ∈ xs, P x) → P (.arr xs))
    (hobj : ∀ kvs, (∀ kv ∈ kvs, P kv.2) → P (.obj kvs)) :
    ∀ v, P v
  | .null => hnull
  | .bool b => hbool b
  | .num n => hnum n
  | .str s => hstr s
  | .arr xs => harr xs fun x hx =>
      JVal.recMem hnull hbool hnum hstr harr hobj x
  | .obj kvs => hobj kvs fun kv hkv =>
      JVal.recMem hnull hbool hnum hstr harr hobj kv.2
termination_by v => sizeOf v
decreasing_by
  · have h1 := List.sizeOf_lt_of_mem hx
    simp only [JVal.arr.sizeOf_spec]
    omega
  · have h1 := List.sizeOf_lt_of_mem hkv
    have h2 : sizeOf kv.2 < sizeOf kv := by
      obtain ⟨k, v2⟩ := kv
      simp only [Prod.mk.sizeOf_spec]
      omega
    simp only [JVal.obj.sizeOf_spec]
    omega

/-- Skipping whitespace stops at a non-whitespace head. -/
theorem skipWs_not_ws {c : Char} (h : isWsChar c = false) (cs : List Char) :
    skipWs (c :: cs) = c :: cs := by
  simp [skipWs, h]

/-- Skipping whitespace passes over an all-whitespace prefix. -/
theorem skipWs_append_ws {pre : List Char} (h : ∀ c ∈ pre, isWsChar c = true)
    (cs : List Char) : skipWs (pre ++ cs) = skipWs cs := by
  induction pre with
  | nil => rfl
  | cons c pre ih =>
    rw [List.cons_append]
    show skipWs (c :: (pre ++ cs)) = skipWs cs
    rw [skipWs, if_pos (h c (List.mem_cons_self c pre))]
    exact ih fun x hx => h x (List.mem_cons_of_mem c hx)

/-- Every character of a newline-plus-indent run is whitespace. -/
theorem indentChars_ws (ind : Nat) : ∀ c ∈ indentChars ind, isWsChar c = true := by
  intro c hc
  simp only [indentChars, List.mem_cons] at hc
  rcases hc with h | h
  · subst h; decide
  · have h2 := List.eq_of_mem_replicate h
    subst h2; decide

/-- `hexVal?` inverts `hexDigitChar` on one hex digit. -/
theorem hexVal?_hexDigitChar {d : Nat} (h : d < 16) :
    hexVal? (hexDigitChar d) = some d := by
  interval_cases d <;> decide

/-- String-body step: closing quote. -/
theorem psb_quote (acc cs : List Char) :
    parseStringBody acc (qMark :: cs) = some (⟨acc.reverse⟩, cs) := by
  rw [parseStringBody.eq_def]
  simp

/-- String-body step: escaped quote. -/
theorem psb_esc_q (acc cs : List Char) :
    parseStringBody acc (bSlash :: qMark :: cs)
      = parseStringBody (qMark :: acc) cs := by
  rw [parseStringBody.eq_def]
  simp [show bSlash ≠ qMark from by decide]

/-- String-body step: escaped backslash. -/
theorem psb_esc_bs (acc cs : List Char) :
    parseStringBody acc (bSlash :: bSlash :: cs)
      = parseStringBody (bSlash :: acc) cs := by
  rw [parseStringBody.eq_def]
  simp [show bSlash ≠ qMark from by decide]

/-- String-body step: `\b`. -/
theorem psb_esc_b (acc cs : List Char) :
    parseStringBody acc (bSlash :: 'b' :: cs)
      = parseStringBody (Char.ofNat 8 :: acc) cs := by
  rw [parseStringBody.eq_def]
  simp [show bSlash ≠ qMark from by decide, show ('b' : Char) ≠ qMark from by decide,
    show ('b' : Char) ≠ bSlash from by decide]

/-- String-body step: `\f`. -/
theorem psb_esc_f (acc cs : List Char) :
    parseStringBody acc (bSlash :: 'f' :: cs)
      = parseStringBody (Char.ofNat 12 :: acc) cs := by
  rw [parseStringBody.eq_def]
  simp [show bSlash ≠ qMark from by decide, show ('f' : Char) ≠ qMark from by decide,
    show ('f' : Char) ≠ bSlash from by decide]

/-- String-body step: `\n`. -/
theorem psb_esc_n (acc cs : List Char) :
    parseStringBody acc (bSlash :: 'n' :: cs)
      = parseStringBody (nlChar :: acc) cs := by
  rw [parseStringBody.eq_def]
  simp [show bSlash ≠ qMark from by decide, show ('n' : Char) ≠ qMark from by decide,
    show ('n' : Char) ≠ bSlash from by decide]

/-- String-body step: `\r`. -/
theorem psb_esc_r (acc cs : List Char) :
    parseStringBody acc (bSlash :: 'r' :: cs)
      = parseStringBody (Char.ofNat 13 :: acc) cs := by
  rw [parseStringBody.eq_def]
  simp [show bSlash ≠ qMark from by decide, show ('r' : Char) ≠ qMark from by decide,
    show ('r' : Char) ≠ bSlash from by decide]

/-- String-body step: `\t`. -/
theorem psb_esc_t (acc cs : List Char) :
    parseStringBody acc (bSlash :: 't' :: cs)
      = parseStringBody (Char.ofNat 9 :: acc) cs := by
  rw [parseStringBody.eq_def]
  simp [show bSlash ≠ qMark from by decide, show ('t' : Char) ≠ qMark from by decide,
    show ('t' : Char) ≠ bSlash from by decide]

/-- String-body step: `\u` with four hex digits. -/
theorem psb_esc_u {h1 h2 h3 h4 : Char} {a b c2 d : Nat} (acc cs : List Char)
    (e1 : hexVal? h1 = some a) (e2 : hexVal? h2 = some b)
    (e3 : hexVal? h3 = some c2) (e4 : hexVal? h4 = some d) :
    parseStringBody acc (bSlash :: 'u' :: h1 :: h2 :: h3 :: h4 :: cs)
      = parseStringBody
          (Char.ofNat (a * 4096 + b * 256 + c2 * 16 + d) :: acc) cs := by
  rw [parseStringBody.eq_def]
  simp [e1, e2, e3, e4, show bSlash ≠ qMark from by decide,
    show ('u' : Char) ≠ qMark from by decide,
    show ('u' : Char) ≠ bSlash from by decide]

/-- String-body step: an ordinary character is taken verbatim. -/
theorem psb_plain {c : Char} (acc cs : List Char) (hq : c ≠ qMark)
    (hbs : c ≠ bSlash) (hctl : ¬ c.toNat < 32) :
    parseStringBody acc (c :: cs) = parseStringBody (c :: acc) cs := by
  rw [parseStringBody.eq_def]
  simp [hq, hbs, hctl]

/-- Parsing the escaped rendering of a string body up to its closing
quote recovers the body on top of the accumulator. -/
theorem parseStringBody_escapeList (l : List Char) :
    ∀ (acc rest : List Char),
      parseStringBody acc (escapeList l ++ qMark :: rest)
        = some (⟨acc.reverse ++ l⟩, rest) := by
  induction l with
  | nil =>
    intro acc rest
    rw [escapeList, List.nil_append, psb_quote]
    simp
  | cons c l ih =>
    intro acc rest
    rw [escapeList, List.append_assoc]
    by_cases hq : c = qMark
    · subst hq
      rw [show escapeChar qMark = [bSlash, qMark] from rfl]
      rw [show ([bSlash, qMark] : List Char) ++ (escapeList l ++ qMark :: rest)
          = bSlash :: qMark :: (escapeList l ++ qMark :: rest) from rfl]
      rw [psb_esc_q, ih]
      simp
    · by_cases hbs : c = bSlash
      · subst hbs
        rw [show escapeChar bSlash = [bSlash, bSlash] from rfl]
        rw [show ([bSlash, bSlash] : List Char) ++ (escapeList l ++ qMark :: rest)
            = bSlash :: bSlash :: (escapeList l ++ qMark :: rest) from rfl]
        rw [psb_esc_bs, ih]
        simp
      · by_cases h8 : c.toNat = 8
        · rw [show escapeChar c = [bSlash, 'b'] from by
            simp [escapeChar, hq, hbs, h8]]
          rw [show ([bSlash, 'b'] : List Char) ++ (escapeList l ++ qMark :: rest)
              = bSlash :: 'b' :: (escapeList l ++ qMark :: rest) from rfl]
          rw [psb_esc_b, show (Char.ofNat 8) = c from by
            rw [← h8, Char.ofNat_toNat], ih]
          simp
        · by_cases h9 : c.toNat = 9
          · rw [show escapeChar c = [bSlash, 't'] from by
              simp [escapeChar, hq, hbs, h8, h9]]
            rw [show ([bSlash, 't'] : List Char) ++ (escapeList l ++ qMark :: rest)
                = bSlash :: 't' :: (escapeList l ++ qMark :: rest) from rfl]
            rw [psb_esc_t, show (Char.ofNat 9) = c from by
              rw [← h9, Char.ofNat_toNat], ih]
            simp
          · by_cases h10 : c.toNat = 10
            · rw [show escapeChar c = [bSlash, 'n'] from by
                simp [escapeChar, hq, hbs, h8, h9, h10]]
              rw [show ([bSlash, 'n'] : List Char) ++ (escapeList l ++ qMark :: rest)
                  = bSlash :: 'n' :: (escapeList l ++ qMark :: rest) from rfl]
              rw [psb_esc_n, show nlChar = c from by
                rw [show nlChar = Char.ofNat 10 from rfl, ← h10, Char.ofNat_toNat],
                ih]
              simp
            · by_cases h12 : c.toNat = 12
              · rw [show escapeChar c = [bSlash, 'f'] from by
                  simp [escapeChar, hq, hbs, h8, h9, h10, h12]]
                rw [show ([bSlash, 'f'] : List Char) ++ (escapeList l ++ qMark :: rest)
                    = bSlash :: 'f' :: (escapeList l ++ qMark :: rest) from rfl]
                rw [psb_esc_f, show (Char.ofNat 12) = c from by
                  rw [← h12, Char.ofNat_toNat], ih]
                simp
              · by_cases h13 : c.toNat = 13
                · rw [show escapeChar c = [bSlash, 'r'] from by
                    simp [escapeChar, hq, hbs, h8, h9, h10, h12, h13]]
                  rw [show ([bSlash, 'r'] : List Char) ++ (escapeList l ++ qMark :: rest)
                      = bSlash :: 'r' :: (escapeList l ++ qMark :: rest) from rfl]
                  rw [psb_esc_r, show (Char.ofNat 13) = c from by
                    rw [← h13, Char.ofNat_toNat], ih]
                  simp
                · by_cases hctl : c.toNat < 32
                  · rw [show escapeChar c = [bSlash, 'u', '0', '0',
                        hexDigitChar (c.toNat / 16), hexDigitChar (c.toNat % 16)]
                        from by simp [escapeChar, hq, hbs, h8, h9, h10, h12, h13,
                          hctl]]
                    rw [show ([bSlash, 'u', '0', '0', hexDigitChar (c.toNat / 16),
                          hexDigitChar (c.toNat % 16)] : List Char)
                        ++ (escapeList l ++ qMark :: rest)
                        = bSlash :: 'u' :: '0' :: '0' :: hexDigitChar (c.toNat / 16)
                          :: hexDigitChar (c.toNat % 16)
                          :: (escapeList l ++ qMark :: rest) from rfl]
                    rw [psb_esc_u _ _ (show hexVal? '0' = some 0 from by decide)
                      (show hexVal? '0' = some 0 from by decide)
                      (hexVal?_hexDigitChar (by omega))
                      (hexVal?_hexDigitChar (by omega))]
                    rw [show 0 * 4096 + 0 * 256 + c.toNat / 16 * 16 + c.toNat % 16
                        = c.toNat from by omega]
                    rw [Char.ofNat_toNat, ih]
                    simp
                  · rw [show escapeChar c = [c] from by
                      simp [escapeChar, hq, hbs, h8, h9, h10, h12, h13, hctl]]
                    rw [show ([c] : List Char) ++ (escapeList l ++ qMark :: rest)
                        = c :: (escapeList l ++ qMark :: rest) from rfl]
                    rw [psb_plain _ _ hq hbs hctl, ih]
                    simp

/-- A decimal digit character is a digit with the expected code point. -/
theorem digitChar_spec {d : Nat} (h : d < 10) :
    (digitChar d).isDigit = true ∧ (digitChar d).toNat = 48 + d := by
  interval_cases d <;> exact ⟨by decide, by decide⟩

/-- `natChars` always starts with a digit character. -/
theorem natChars_head (n : Nat) :
    ∃ (d : Nat) (t : List Char), natChars n = digitChar d :: t ∧ d < 10 := by
  induction n using Nat.strong_induction_on with
  | _ n ih =>
    by_cases h : n < 10
    · exact ⟨n, [], by rw [natChars.eq_def, dif_pos h], h⟩
    · obtain ⟨d, t, ht, hd⟩ := ih (n / 10) (Nat.div_lt_self (by omega) (by omega))
      refine ⟨d, t ++ [digitChar (n % 10)], ?_, hd⟩
      rw [natChars.eq_def, dif_neg h, ht]
      rfl

/-- One digit-scan step on a digit character. -/
theorem parseDigits_cons_digit {c : Char} (h : c.isDigit = true)
    (cs : List Char) (acc : Nat) :
    parseDigits (c :: cs) acc = parseDigits cs (acc * 10 + (c.toNat - 48)) := by
  rw [parseDigits.eq_def]
  simp [h]

/-- The digit scan stops at a digit boundary. -/
theorem parseDigits_boundary {rest : List Char} (h : digitBoundary rest)
    (acc : Nat) : parseDigits rest acc = (acc, rest) := by
  cases rest with
  | nil => rw [parseDigits.eq_def]
  | cons c cs =>
    rw [parseDigits.eq_def]
    simp only [digitBoundary] at h
    simp [h]

/-- Scanning the rendered digits of `n` multiplies the accumulator past
them and adds `n`. -/
theorem parseDigits_natChars (n : Nat) :
    ∀ (acc : Nat) (rest : List Char),
      parseDigits (natChars n ++ rest) acc
        = parseDigits rest (acc * 10 ^ (natChars n).length + n) := by
  induction n using Nat.strong_induction_on with
  | _ n ih =>
    intro acc rest
    by_cases h : n < 10
    · rw [show natChars n = [digitChar n] from by rw [natChars.eq_def, dif_pos h]]
      obtain ⟨hd1, hd2⟩ := digitChar_spec h
      rw [show ([digitChar n] : List Char) ++ rest = digitChar n :: rest from rfl]
      rw [parseDigits_cons_digit hd1, hd2]
      congr 1
      simp only [List.length_singleton, pow_one]
      omega
    · rw [show natChars n = natChars (n / 10) ++ [digitChar (n % 10)] from by
        rw [natChars.eq_def, dif_neg h]]
      rw [List.append_assoc, ih (n / 10) (Nat.div_lt_self (by omega) (by omega))]
      obtain ⟨hd1, hd2⟩ := digitChar_spec (show n % 10 < 10 by omega)
      rw [show ([digitChar (n % 10)] : List Char) ++ rest
          = digitChar (n % 10) :: rest from rfl]
      rw [parseDigits_cons_digit hd1, hd2]
      congr 1
      rw [List.length_append, List.length_singleton, pow_succ]
      have hmod := Nat.div_add_mod n 10
      calc (acc * 10 ^ (natChars (n / 10)).length + n / 10) * 10 + (48 + n % 10 - 48)
          = acc * (10 ^ (natChars (n / 10)).length * 10)
            + (n / 10 * 10 + n % 10) := by ring_nf; omega
        _ = acc * (10 ^ (natChars (n / 10)).length * 10) + n := by omega

/-- `parseNumber` inverts `intChars` up to a digit boundary. -/
theorem parseNumber_intChars (n : Int) {rest : List Char}
    (hrest : digitBoundary rest) :
    parseNumber (intChars n ++ rest) = some (.num n, rest) := by
  obtain ⟨d, t, ht, hd⟩ := natChars_head n.natAbs
  obtain ⟨hd1, hd2⟩ := digitChar_spec hd
  have hh : natChars n.natAbs ++ rest = digitChar d :: (t ++ rest) := by
    rw [ht]; rfl
  by_cases hneg : n < 0
  · rw [show intChars n = '-' :: natChars n.natAbs from by
      simp only [intChars, if_pos hneg]]
    rw [show ('-' :: natChars n.natAbs) ++ rest
        = '-' :: (natChars n.natAbs ++ rest) from rfl]
    rw [parseNumber.eq_def, hh]
    simp [hd1]
    rw [show digitChar d :: (t ++ rest) = natChars n.natAbs ++ rest from hh.symm]
    rw [parseDigits_natChars, parseDigits_boundary hrest]
    simp only [Nat.zero_mul, Nat.zero_add]
    exact ⟨by omega, trivial⟩
  · rw [show intChars n = natChars n.natAbs from by
      simp only [intChars, if_neg hneg]]
    rw [hh, parseNumber.eq_def]
    have hne : ¬ (digitChar d = '-') := by
      intro heq
      have h3 := congrArg Char.toNat heq
      rw [hd2] at h3
      simp only [show ('-' : Char).toNat = 45 from rfl] at h3
      omega
    simp [hne, hd1]
    rw [show digitChar d :: (t ++ rest) = natChars n.natAbs ++ rest from hh.symm]
    rw [parseDigits_natChars, parseDigits_boundary hrest]
    simp only [Nat.zero_mul, Nat.zero_add]
    exact ⟨by omega, trivial⟩

/-- Characters differing in code point differ. -/
theorem ne_of_toNat_ne {c c' : Char} (h : c.toNat ≠ c'.toNat) : c ≠ c' :=
  fun he => h (congrArg Char.toNat he)

/-- A character is not whitespace if its code point is none of 32, 10,
9, 13. -/
theorem isWsChar_false_of_toNat {c : Char} (h32 : c.toNat ≠ 32)
    (h10 : c.toNat ≠ 10) (h9 : c.toNat ≠ 9) (h13 : c.toNat ≠ 13) :
    isWsChar c = false := by
  simp only [isWsChar, Bool.or_eq_false_iff, decide_eq_false_iff_not]
  refine ⟨⟨⟨?_, ?_⟩, ?_⟩, ?_⟩ <;> first
    | exact fun he => h32 (by rw [he]; rfl)
    | exact fun he => h10 (by rw [he]; rfl)
    | exact h9
    | exact h13

/-- The rendering of any value starts with a non-whitespace character
that is neither a closing bracket nor a closing brace. -/
theorem renderVal_head (v : JVal) (ind : Nat) :
    ∃ (c : Char) (cs : List Char), renderVal v ind = c :: cs
      ∧ isWsChar c = false ∧ c ≠ ']' ∧ c ≠ rBrace := by
  cases v with
  | null =>
    exact ⟨'n', ['u', 'l', 'l'], by simp [renderVal], by decide, by decide,
      by decide⟩
  | bool b =>
    cases b with
    | true =>
      exact ⟨'t', ['r', 'u', 'e'], by simp [renderVal], by decide, by decide,
        by decide⟩
    | false =>
      exact ⟨'f', ['a', 'l', 's', 'e'], by simp [renderVal], by decide,
        by decide, by decide⟩
  | num n =>
    by_cases hneg : n < 0
    · refine ⟨'-', natChars n.natAbs, ?_, by decide, by decide, by decide⟩
      simp [renderVal, intChars, hneg]
    · obtain ⟨d, t, ht, hd⟩ := natChars_head n.natAbs
      obtain ⟨_, hd2⟩ := digitChar_spec hd
      refine ⟨digitChar d, t, ?_, ?_, ?_, ?_⟩
      · simp [renderVal, intChars, hneg, ht]
      · exact isWsChar_false_of_toNat (by omega) (by omega) (by omega) (by omega)
      · exact ne_of_toNat_ne (by rw [hd2]; rw [show (']' : Char).toNat = 93 from rfl]; omega)
      · exact ne_of_toNat_ne (by rw [hd2]; rw [show rBrace.toNat = 125 from rfl]; omega)
  | str s =>
    exact ⟨qMark, escapeList s.data ++ [qMark], by simp [renderVal, renderString],
      by decide, by decide, by decide⟩
  | arr xs =>
    cases xs with
    | nil =>
      exact ⟨'[', [']'], by simp [renderVal], by decide, by decide, by decide⟩
    | cons x xs =>
      exact ⟨'[', indentChars (ind + 2) ++ (renderVal x (ind + 2)
        ++ (renderArrItems xs (ind + 2) ++ (indentChars ind ++ [']']))),
        by simp [renderVal], by decide, by decide, by decide⟩
  | obj kvs =>
    cases kvs with
    | nil =>
      exact ⟨lBrace, [rBrace], by simp [renderVal], by decide, by decide,
        by decide⟩
    | cons kv kvs =>
      obtain ⟨k, v2⟩ := kv
      exact ⟨lBrace, indentChars (ind + 2) ++ (renderString k
        ++ ':' :: ' ' :: (renderVal v2 (ind + 2) ++ (renderObjItems kvs (ind + 2)
          ++ (indentChars ind ++ [rBrace])))),
        by simp [renderVal], by decide, by decide, by decide⟩

/-- A newline-plus-indent run is a digit boundary. -/
theorem digitBoundary_indent (ind : Nat) (cs : List Char) :
    digitBoundary (indentChars ind ++ cs) := by
  simp only [indentChars, List.cons_append]
  show nlChar.isDigit = false
  decide

/-- A comma is a digit boundary. -/
theorem digitBoundary_comma (cs : List Char) : digitBoundary (',' :: cs) :=
  show (',' : Char).isDigit = false from by decide

/-- Parsing the rendered items of a non-empty array (first element onward,
through the closing bracket), given the round trip for each member. -/
theorem parseElements_render_aux :
    ∀ (xs : List JVal) (x : JVal),
      (∀ w ∈ x :: xs, ∀ (fuel ind : Nat) (pre rest : List Char),
        (∀ c ∈ pre, isWsChar c = true) → vsize w ≤ fuel → digitBoundary rest →
        parseValue fuel (pre ++ (renderVal w ind ++ rest)) = some (w, rest)) →
      ∀ (fuel ind2 indC : Nat) (pre rest : List Char),
        (∀ c ∈ pre, isWsChar c = true) → listFuel (x :: xs) ≤ fuel →
        parseElements fuel (pre ++ (renderVal x ind2 ++ (renderArrItems xs ind2
            ++ (indentChars indC ++ (']' :: rest)))))
          = some (x :: xs, rest) := by
  intro xs
  induction xs with
  | nil =>
    intro x hIH fuel ind2 indC pre rest hpre hfuel
    have hlf : 1 + vsize x + 1 ≤ fuel := by
      simpa [listFuel] using hfuel
    obtain ⟨g, rfl⟩ : ∃ g, fuel = g + 1 := ⟨fuel - 1, by omega⟩
    simp only [renderArrItems, List.nil_append]
    have hx := hIH x (List.mem_cons_self x []) g ind2 pre
      (indentChars indC ++ (']' :: rest)) hpre (by omega)
      (digitBoundary_indent indC _)
    rw [parseElements.eq_def]
    simp only [hx]
    rw [skipWs_append_ws (indentChars_ws indC),
      skipWs_not_ws (show isWsChar ']' = false from by decide)]
    simp
  | cons y ys ih =>
    intro x hIH fuel ind2 indC pre rest hpre hfuel
    have hlf : 1 + vsize x + listFuel (y :: ys) ≤ fuel := by
      simpa [listFuel] using hfuel
    obtain ⟨g, rfl⟩ : ∃ g, fuel = g + 1 := ⟨fuel - 1, by omega⟩
    have harr : renderArrItems (y :: ys) ind2
        ++ (indentChars indC ++ (']' :: rest))
        = ',' :: (indentChars ind2 ++ (renderVal y ind2 ++ (renderArrItems ys ind2
            ++ (indentChars indC ++ (']' :: rest))))) := by
      simp [renderArrItems]
    have hx := hIH x (List.mem_cons_self x (y :: ys)) g ind2 pre
      (renderArrItems (y :: ys) ind2 ++ (indentChars indC ++ (']' :: rest)))
      hpre (by omega) (by rw [harr]; exact digitBoundary_comma _)
    rw [parseElements.eq_def]
    simp only [hx]
    rw [harr, skipWs_not_ws (show isWsChar ',' = false from by decide)]
    have hrec := ih y (fun w hw => hIH w (List.mem_cons_of_mem x hw)) g ind2 indC
      (indentChars ind2) rest (indentChars_ws ind2) (by simp [listFuel] at hlf ⊢; omega)
    simp only [List.append_assoc] at hrec
    simp only [hrec]

/-- Parsing the rendered members of a non-empty object (first key onward,
through the closing brace), given the round trip for each member value. -/
theorem parseMembers_render_aux :
    ∀ (kvs : List (String × JVal)) (k : String) (v : JVal),
      (∀ w ∈ (k, v) :: kvs, ∀ (fuel ind : Nat) (pre rest : List Char),
        (∀ c ∈ pre, isWsChar c = true) → vsize w.2 ≤ fuel → digitBoundary rest →
        parseValue fuel (pre ++ (renderVal w.2 ind ++ rest)) = some (w.2, rest)) →
      ∀ (fuel ind2 indC : Nat) (pre rest : List Char),
        (∀ c ∈ pre, isWsChar c = true) → objFuel ((k, v) :: kvs) ≤ fuel →
        parseMembers fuel (pre ++ (renderString k ++ (':' :: ' '
            :: (renderVal v ind2 ++ (renderObjItems kvs ind2
              ++ (indentChars indC ++ (rBrace :: rest)))))))
          = some ((k, v) :: kvs, rest) := by
  intro kvs
  induction kvs with
  | nil =>
    intro k v hIH fuel ind2 indC pre rest hpre hfuel
    have hlf : 1 + vsize v + 1 ≤ fuel := by
      simpa [objFuel] using hfuel
    obtain ⟨g, rfl⟩ : ∃ g, fuel = g + 1 := ⟨fuel - 1, by omega⟩
    simp only [renderObjItems, List.nil_append]
    have hstr : renderString k ++ (':' :: ' ' :: (renderVal v ind2
        ++ (indentChars indC ++ (rBrace :: rest))))
        = qMark :: (escapeList k.data ++ (qMark :: (':' :: ' '
          :: (renderVal v ind2 ++ (indentChars indC ++ (rBrace :: rest))))))
        := by simp [renderString]
    have hx := hIH (k, v) (List.mem_cons_self _ _) g ind2 [' ']
      (indentChars indC ++ (rBrace :: rest))
      (by intro c hc; simp at hc; subst hc; decide)
      (by show vsize v ≤ g; omega) (digitBoundary_indent indC _)
    simp only [List.singleton_append] at hx
    rw [parseMembers.eq_def]
    simp [skipWs_append_ws hpre, hstr,
      skipWs_not_ws (show isWsChar qMark = false from by decide),
      parseStringBody_escapeList,
      skipWs_not_ws (show isWsChar ':' = false from by decide),
      hx,
      skipWs_append_ws (indentChars_ws indC),
      skipWs_not_ws (show isWsChar rBrace = false from by decide),
      show (rBrace ≠ ',') from by decide]
  | cons kv2 kvs2 ih =>
    obtain ⟨k2, v2⟩ := kv2
    intro k v hIH fuel ind2 indC pre rest hpre hfuel
    have hlf : 1 + vsize v + objFuel ((k2, v2) :: kvs2) ≤ fuel := by
      simpa [objFuel] using hfuel
    obtain ⟨g, rfl⟩ : ∃ g, fuel = g + 1 := ⟨fuel - 1, by omega⟩
    have hobj : renderObjItems ((k2, v2) :: kvs2) ind2
        ++ (indentChars indC ++ (rBrace :: rest))
        = ',' :: (indentChars ind2 ++ (renderString k2 ++ (':' :: ' '
          :: (renderVal v2 ind2 ++ (renderObjItems kvs2 ind2
            ++ (indentChars indC ++ (rBrace :: rest))))))) := by
      simp [renderObjItems]
    have hstr : renderString k ++ (':' :: ' ' :: (renderVal v ind2
        ++ (renderObjItems ((k2, v2) :: kvs2) ind2
          ++ (indentChars indC ++ (rBrace :: rest)))))
        = qMark :: (escapeList k.data ++ (qMark :: (':' :: ' '
          :: (renderVal v ind2 ++ (renderObjItems ((k2, v2) :: kvs2) ind2
            ++ (indentChars indC ++ (rBrace :: rest)))))))
        := by simp [renderString]
    have hx := hIH (k, v) (List.mem_cons_self _ _) g ind2 [' ']
      (renderObjItems ((k2, v2) :: kvs2) ind2
        ++ (indentChars indC ++ (rBrace :: rest)))
      (by intro c hc; simp at hc; subst hc; decide)
      (by show vsize v ≤ g; omega) (by rw [hobj]; exact digitBoundary_comma _)
    simp only [List.singleton_append] at hx
    have hrec := ih k2 v2 (fun w hw => hIH w (List.mem_cons_of_mem _ hw)) g ind2
      indC (indentChars ind2) rest (indentChars_ws ind2)
      (by simp [objFuel] at hlf ⊢; omega)
    simp only [List.append_assoc] at hrec
    rw [hobj] at hx hstr
    rw [parseMembers.eq_def]
    simp [skipWs_append_ws hpre, hstr,
      skipWs_not_ws (show isWsChar qMark = false from by decide),
      parseStringBody_escapeList,
      skipWs_not_ws (show isWsChar ':' = false from by decide),
      hx, hobj,
      skipWs_not_ws (show isWsChar ',' = false from by decide),
      hrec]

/-- The rendering of an integer starts with a minus sign or a digit:
non-whitespace, and none of the other value dispatch characters. -/
theorem intChars_head (n : Int) :
    ∃ (c : Char) (t : List Char), intChars n = c :: t
      ∧ isWsChar c = false ∧ c ≠ qMark ∧ c ≠ lBrace ∧ c ≠ '['
      ∧ c ≠ 'n' ∧ c ≠ 't' ∧ c ≠ 'f' := by
  by_cases hneg : n < 0
  · refine ⟨'-', natChars n.natAbs, by simp [intChars, hneg], by decide,
      by decide, by decide, by decide, by decide, by decide, by decide⟩
  · obtain ⟨d, t, ht, hd⟩ := natChars_head n.natAbs
    obtain ⟨_, hd2⟩ := digitChar_spec hd
    refine ⟨digitChar d, t, by simp [intChars, hneg, ht],
      isWsChar_false_of_toNat (by omega) (by omega) (by omega) (by omega),
      ne_of_toNat_ne (by rw [hd2, show qMark.toNat = 34 from rfl]; omega),
      ne_of_toNat_ne (by rw [hd2, show lBrace.toNat = 123 from rfl]; omega),
      ne_of_toNat_ne (by rw [hd2, show ('[' : Char).toNat = 91 from rfl]; omega),
      ne_of_toNat_ne (by rw [hd2, show ('n' : Char).toNat = 110 from rfl]; omega),
      ne_of_toNat_ne (by rw [hd2, show ('t' : Char).toNat = 116 from rfl]; omega),
      ne_of_toNat_ne (by rw [hd2, show ('f' : Char).toNat = 102 from rfl]; omega)⟩

/-- The parser reads back exactly the value the renderer wrote: the
round-trip workhorse, by structural induction over the value. -/
theorem parseValue_renderVal :
    ∀ v : JVal, ∀ (fuel ind : Nat) (pre rest : List Char),
      (∀ c ∈ pre, isWsChar c = true) → vsize v ≤ fuel → digitBoundary rest →
      parseValue fuel (pre ++ (renderVal v ind ++ rest)) = some (v, rest) := by
  intro v
  induction v using JVal.recMem with
  | hnull =>
    intro fuel ind pre rest hpre hfuel hrest
    obtain ⟨g, rfl⟩ : ∃ g, fuel = g + 1 := ⟨fuel - 1, by
      simp [vsize] at hfuel; omega⟩
    have hform : renderVal .null ind ++ rest = 'n' :: ('u' :: 'l' :: 'l' :: rest) := by
      simp [renderVal]
    rw [parseValue.eq_def]
    simp [hform, skipWs_append_ws hpre,
      skipWs_not_ws (show isWsChar 'n' = false from by decide),
      show ('n' : Char) ≠ qMark from by decide,
      show ('n' : Char) ≠ lBrace from by decide,
      show ('n' : Char) ≠ '[' from by decide]
  | hbool b =>
    intro fuel ind pre rest hpre hfuel hrest
    obtain ⟨g, rfl⟩ : ∃ g, fuel = g + 1 := ⟨fuel - 1, by
      simp [vsize] at hfuel; omega⟩
    cases b with
    | true =>
      have hform : renderVal (.bool true) ind ++ rest
          = 't' :: ('r' :: 'u' :: 'e' :: rest) := by
        simp [renderVal]
      rw [parseValue.eq_def]
      simp [hform, skipWs_append_ws hpre,
        skipWs_not_ws (show isWsChar 't' = false from by decide),
        show ('t' : Char) ≠ qMark from by decide,
        show ('t' : Char) ≠ lBrace from by decide,
        show ('t' : Char) ≠ '[' from by decide,
        show ('t' : Char) ≠ 'n' from by decide]
    | false =>
      have hform : renderVal (.bool false) ind ++ rest
          = 'f' :: ('a' :: 'l' :: 's' :: 'e' :: rest) := by
        simp [renderVal]
      rw [parseValue.eq_def]
      simp [hform, skipWs_append_ws hpre,
        skipWs_not_ws (show isWsChar 'f' = false from by decide),
        show ('f' : Char) ≠ qMark from by decide,
        show ('f' : Char) ≠ lBrace from by decide,
        show ('f' : Char) ≠ '[' from by decide,
        show ('f' : Char) ≠ 'n' from by decide,
        show ('f' : Char) ≠ 't' from by decide]
  | hnum n =>
    intro fuel ind pre rest hpre hfuel hrest
    obtain ⟨g, rfl⟩ : ∃ g, fuel = g + 1 := ⟨fuel - 1, by
      simp [vsize] at hfuel; omega⟩
    obtain ⟨c, t, hct, hws, hdq, hdlb, hdlk, hdn, hdt, hdf⟩ := intChars_head n
    have hform : renderVal (.num n) ind ++ rest = c :: (t ++ rest) := by
      simp [renderVal, hct]
    have hpn : parseNumber (c :: (t ++ rest)) = some (.num n, rest) := by
      rw [show c :: (t ++ rest) = intChars n ++ rest from by rw [hct]; rfl]
      exact parseNumber_intChars n hrest
    rw [parseValue.eq_def]
    simp [hform, skipWs_append_ws hpre, skipWs_not_ws hws,
      hdq, hdlb, hdlk, hdn, hdt, hdf, hpn]
  | hstr s =>
    intro fuel ind pre rest hpre hfuel hrest
    obtain ⟨g, rfl⟩ : ∃ g, fuel = g + 1 := ⟨fuel - 1, by
      simp [vsize] at hfuel; omega⟩
    have hform : renderVal (.str s) ind ++ rest
        = qMark :: (escapeList s.data ++ (qMark :: rest)) := by
      simp [renderVal, renderString]
    rw [parseValue.eq_def]
    simp [hform, skipWs_append_ws hpre,
      skipWs_not_ws (show isWsChar qMark = false from by decide),
      parseStringBody_escapeList]
  | harr xs hmem =>
    intro fuel ind pre rest hpre hfuel hrest
    cases xs with
    | nil =>
      obtain ⟨g, rfl⟩ : ∃ g, fuel = g + 1 := ⟨fuel - 1, by
        simp [vsize] at hfuel; omega⟩
      have hform : renderVal (.arr []) ind ++ rest = '[' :: (']' :: rest) := by
        simp [renderVal]
      rw [parseValue.eq_def]
      simp [hform, skipWs_append_ws hpre,
        skipWs_not_ws (show isWsChar '[' = false from by decide),
        skipWs_not_ws (show isWsChar ']' = false from by decide),
        show ('[' : Char) ≠ qMark from by decide,
        show ('[' : Char) ≠ lBrace from by decide]
    | cons x xs =>
      obtain ⟨g, rfl⟩ : ∃ g, fuel = g + 1 := ⟨fuel - 1, by
        simp [vsize] at hfuel; omega⟩
      have hlf : listFuel (x :: xs) ≤ g := by
        simp [vsize] at hfuel; omega
      obtain ⟨c0, cs0, hx0, hws0, hne0, _⟩ := renderVal_head x (ind + 2)
      have hform : renderVal (.arr (x :: xs)) ind ++ rest
          = '[' :: (indentChars (ind + 2) ++ (c0 :: (cs0
            ++ (renderArrItems xs (ind + 2)
              ++ (indentChars ind ++ (']' :: rest)))))) := by
        simp [renderVal, hx0]
      have haux := parseElements_render_aux xs x hmem g (ind + 2) ind [] rest
        (by intro c hc; cases hc) hlf
      simp only [List.nil_append] at haux
      rw [hx0] at haux
      simp only [List.cons_append] at haux
      rw [parseValue.eq_def]
      simp [hform, skipWs_append_ws hpre,
        skipWs_not_ws (show isWsChar '[' = false from by decide),
        skipWs_append_ws (indentChars_ws (ind + 2)),
        skipWs_not_ws hws0,
        show ('[' : Char) ≠ qMark from by decide,
        show ('[' : Char) ≠ lBrace from by decide,
        hne0, haux]
  | hobj kvs hmem =>
    intro fuel ind pre rest hpre hfuel hrest
    cases kvs with
    | nil =>
      obtain ⟨g, rfl⟩ : ∃ g, fuel = g + 1 := ⟨fuel - 1, by
        simp [vsize] at hfuel; omega⟩
      have hform : renderVal (.obj []) ind ++ rest = lBrace :: (rBrace :: rest) := by
        simp [renderVal]
      rw [parseValue.eq_def]
      simp [hform, skipWs_append_ws hpre,
        skipWs_not_ws (show isWsChar lBrace = false from by decide),
        skipWs_not_ws (show isWsChar rBrace = false from by decide),
        show lBrace ≠ qMark from by decide]
    | cons kv kvs =>
      obtain ⟨k, v⟩ := kv
      obtain ⟨g, rfl⟩ : ∃ g, fuel = g + 1 := ⟨fuel - 1, by
        simp [vsize] at hfuel; omega⟩
      have hlf : objFuel ((k, v) :: kvs) ≤ g := by
        simp [vsize] at hfuel; omega
      have hform : renderVal (.obj ((k, v) :: kvs)) ind ++ rest
          = lBrace :: (indentChars (ind + 2) ++ (qMark :: (escapeList k.data
            ++ (qMark :: (':' :: ' ' :: (renderVal v (ind + 2)
              ++ (renderObjItems kvs (ind + 2)
                ++ (indentChars ind ++ (rBrace :: rest))))))))) := by
        simp [renderVal, renderString]
      have haux := parseMembers_render_aux kvs k v hmem g (ind + 2) ind [] rest
        (by intro c hc; cases hc) hlf
      simp only [List.nil_append] at haux
      rw [show renderString k ++ (':' :: ' ' :: (renderVal v (ind + 2)
          ++ (renderObjItems kvs (ind + 2) ++ (indentChars ind ++ (rBrace :: rest)))))
          = qMark :: (escapeList k.data ++ (qMark :: (':' :: ' '
            :: (renderVal v (ind + 2) ++ (renderObjItems kvs (ind + 2)
              ++ (indentChars ind ++ (rBrace :: rest)))))))
          from by simp [renderString]] at haux
      rw [parseValue.eq_def]
      simp [hform, skipWs_append_ws hpre,
        skipWs_not_ws (show isWsChar lBrace = false from by decide),
        skipWs_append_ws (indentChars_ws (ind + 2)),
        skipWs_not_ws (show isWsChar qMark = false from by decide),
        show lBrace ≠ qMark from by decide,
        show qMark ≠ rBrace from by decide,
        haux]

/-- The fuel an array's items need is within their rendered length. -/
theorem listFuel_le_items (xs : List JVal)
    (h : ∀ x ∈ xs, ∀ ind : Nat, vsize x ≤ (renderVal x ind).length) :
    ∀ ind : Nat, listFuel xs ≤ (renderArrItems xs ind).length + 2 := by
  induction xs with
  | nil =>
    intro ind
    simp [listFuel, renderArrItems]
  | cons y ys ih =>
    intro ind
    have hy := h y (List.mem_cons_self y ys) ind
    have hys := ih (fun x hx => h x (List.mem_cons_of_mem _ hx)) ind
    have hlen : (renderArrItems (y :: ys) ind).length
        = 1 + (ind + 1) + (renderVal y ind).length
          + (renderArrItems ys ind).length := by
      simp [renderArrItems, indentChars]
      omega
    simp only [listFuel]
    omega

/-- The fuel an object's members need is within their rendered length. -/
theorem objFuel_le_items (kvs : List (String × JVal))
    (h : ∀ kv ∈ kvs, ∀ ind : Nat, vsize kv.2 ≤ (renderVal kv.2 ind).length) :
    ∀ ind : Nat, objFuel kvs ≤ (renderObjItems kvs ind).length + 2 := by
  induction kvs with
  | nil =>
    intro ind
    simp [objFuel, renderObjItems]
  | cons kv kvs ih =>
    obtain ⟨k, v⟩ := kv
    intro ind
    have hv := h (k, v) (List.mem_cons_self _ _) ind
    have hkvs := ih (fun x hx => h x (List.mem_cons_of_mem _ hx)) ind
    have hlen : (renderObjItems ((k, v) :: kvs) ind).length
        = 1 + (ind + 1) + (renderString k).length + 2
          + (renderVal v ind).length + (renderObjItems kvs ind).length := by
      simp [renderObjItems, indentChars]
      omega
    simp only [objFuel] at hv hkvs ⊢
    omega

/-- A value's fuel requirement never exceeds its rendered length, so the
fuel `json_loads` picks is always sufficient. -/
theorem vsize_le_renderVal :
    ∀ v : JVal, ∀ ind : Nat, vsize v ≤ (renderVal v ind).length := by
  intro v
  induction v using JVal.recMem with
  | hnull => intro ind; simp [vsize, renderVal]
  | hbool b => intro ind; cases b <;> simp [vsize, renderVal]
  | hnum n =>
    intro ind
    obtain ⟨c, t, hct, _⟩ := intChars_head n
    simp [vsize, renderVal, hct]
  | hstr s =>
    intro ind
    simp [vsize, renderVal, renderString]
  | harr xs hmem =>
    intro ind
    cases xs with
    | nil => simp [vsize, listFuel, renderVal]
    | cons x xs =>
      have hx := hmem x (List.mem_cons_self x xs) (ind + 2)
      have hxs := listFuel_le_items xs
        (fun w hw => hmem w (List.mem_cons_of_mem _ hw)) (ind + 2)
      have hlen : (renderVal (.arr (x :: xs)) ind).length
          = 1 + (ind + 3) + (renderVal x (ind + 2)).length
            + (renderArrItems xs (ind + 2)).length + (ind + 1) + 1 := by
        simp [renderVal, indentChars]
        omega
      simp only [vsize, listFuel]
      omega
  | hobj kvs hmem =>
    intro ind
    cases kvs with
    | nil => simp [vsize, objFuel, renderVal]
    | cons kv kvs =>
      obtain ⟨k, v⟩ := kv
      have hv := hmem (k, v) (List.mem_cons_self _ _) (ind + 2)
      have hkvs := objFuel_le_items kvs
        (fun w hw => hmem w (List.mem_cons_of_mem _ hw)) (ind + 2)
      have hlen : (renderVal (.obj ((k, v) :: kvs)) ind).length
          = 1 + (ind + 3) + (renderString k).length + 2
            + (renderVal v (ind + 2)).length
            + (renderObjItems kvs (ind + 2)).length + (ind + 1) + 1 := by
        simp [renderVal, indentChars]
        omega
      simp only [vsize, objFuel] at hv hkvs ⊢
      omega

/-- A string body without quotes, backslashes or control characters —
all non-ASCII text included — is written verbatim, unescaped. -/
theorem escapeList_id {l : List Char}
    (h : ∀ c ∈ l, 32 ≤ c.toNat ∧ c ≠ qMark ∧ c ≠ bSlash) :
    escapeList l = l := by
  induction l with
  | nil => rfl
  | cons c l ih =>
    obtain ⟨h32, hq, hbs⟩ := h c (List.mem_cons_self c l)
    have hc : escapeChar c = [c] := by
      simp [escapeChar, hq, hbs, show ¬ c.toNat = 8 from by omega,
        show ¬ c.toNat = 9 from by omega, show ¬ c.toNat = 10 from by omega,
        show ¬ c.toNat = 12 from by omega, show ¬ c.toNat = 13 from by omega,
        show ¬ c.toNat < 32 from by omega]
    rw [escapeList, hc, ih (fun x hx => h x (List.mem_cons_of_mem _ hx))]
    rfl

/-- Re-parsing what the renderer wrote for any value yields that value. -/
theorem json_loads_renderVal (v : JVal) :
    json_loads (renderVal v 0) = some v := by
  have hm := parseValue_renderVal v ((renderVal v 0).length + 1) 0 [] []
    (by intro c hc; cases hc)
    (by have := vsize_le_renderVal v 0; omega)
    trivial
  simp only [List.nil_append, List.append_nil] at hm
  rw [json_loads, hm]
  rfl

/-- **C5.** Persisting any collection of records with `save_datasets`
writes exactly the pretty-printed (indent 2) JSON array that
`json.dump(…, ensure_ascii=False)` produces, re-parsing that text yields
a collection deep-equal to the original, and string content that needs
no JSON escaping — all non-ASCII text included — appears verbatim
between its quotes, not escaped to ASCII-safe sequences. -/
theorem C5_save_roundtrip_verbatim (datasets : List JVal) :
    save_datasets datasets true = .ok (renderVal (.arr datasets) 0)
      ∧ json_loads (renderVal (.arr datasets) 0) = some (.arr datasets)
      ∧ ∀ s : String, (∀ c ∈ s.data, 32 ≤ c.toNat ∧ c ≠ qMark ∧ c ≠ bSlash) →
          renderString s = qMark :: (s.data ++ [qMark]) := by
  refine ⟨by simp [save_datasets], json_loads_renderVal (.arr datasets), ?_⟩
  intro s hs
  rw [renderString, escapeList_id hs]

/-- Witness for C5 at a one-record collection holding non-ASCII text. -/
theorem C5_save_roundtrip_verbatim_witness :
    save_datasets [.str "é"] true = .ok (renderVal (.arr [.str "é"]) 0)
      ∧ json_loads (renderVal (.arr [.str "é"]) 0) = some (.arr [.str "é"])
      ∧ renderString "é" = qMark :: ("é".data ++ [qMark]) :=
  ⟨(C5_save_roundtrip_verbatim [.str "é"]).1,
    (C5_save_roundtrip_verbatim [.str "é"]).2.1,
    (C5_save_roundtrip_verbatim [.str "é"]).2.2 "é" (by decide)⟩
